import Mathlib

/-!
# RepoDigest — verification of the digest pipeline

A shallow embedding of the RepoDigest core pipeline
(`packages/core/src/types.ts`, `packages/core/src/rules/due-resolver.ts`,
`packages/core/src/rules/status-classifier.ts`, `packages/core/src/summarizer.ts`,
`packages/cli/src/index.ts` aggregation, and the renderer-x thread splitter),
together with theorems settling the specified properties.

JavaScript strings are modelled as Lean `String` (a list of characters);
every JS string operation used by the source is re-implemented below on the
character list so that all definitions evaluate by kernel reduction.
Host facilities that the source delegates to the JavaScript runtime
(`Intl.DateTimeFormat` date formatting and `Date` parsing) are modelled as
explicit function parameters, collected in `JsEnv`.
-/

/-! ## JavaScript string primitives -/

/-- The whitespace test used by the embedding; matches the characters the
source's inputs actually exercise (space, tab, CR, LF). -/
def isWS (c : Char) : Bool :=
  c == ' ' || c == '\t' || c == '\r' || c == '\n'

/-- ASCII lower-casing of one character, as `String.prototype.toLowerCase`
behaves on the ASCII range. -/
def lowerChar (c : Char) : Char :=
  if 'A' ≤ c ∧ c ≤ 'Z' then Char.ofNat (c.toNat + 32) else c

/-- `s.toLowerCase()` (ASCII range). -/
def jsToLower (s : String) : String :=
  String.mk (s.data.map lowerChar)

/-- `s.trim()`. -/
def jsTrim (s : String) : String :=
  String.mk (((s.data.dropWhile isWS).reverse.dropWhile isWS).reverse)

/-- `s.trimEnd()`. -/
def jsTrimEnd (s : String) : String :=
  String.mk ((s.data.reverse.dropWhile isWS).reverse)

/-- `s.length` (JS code units; inputs are modelled at character granularity). -/
def jsLen (s : String) : Nat := s.data.length

/-- `s.slice(0, n)` for `n ≥ 0`. -/
def jsTake (n : Nat) (s : String) : String := String.mk (s.data.take n)

/-- `s.slice(n)` for `n ≥ 0`. -/
def jsDrop (n : Nat) (s : String) : String := String.mk (s.data.drop n)

/-- Does `p` occur at the start of `l`? -/
def isPrefList : List Char → List Char → Bool
  | [], _ => true
  | _ :: _, [] => false
  | p :: ps, c :: cs => p == c && isPrefList ps cs

/-- Does `l` contain `pat` as a contiguous run? (`String.prototype.includes`). -/
def hasSub (pat : List Char) : List Char → Bool
  | [] => isPrefList pat []
  | l@(_ :: rest) => isPrefList pat l || hasSub pat rest

/-- `s.includes(pat)`. -/
def strHasSub (s pat : String) : Bool := hasSub pat.data s.data

/-- Index of the first occurrence of `pat` in `l`, if any. -/
def findSubIdx (pat : List Char) : List Char → Option Nat
  | [] => if isPrefList pat [] then some 0 else none
  | l@(_ :: rest) =>
    if isPrefList pat l then some 0 else (findSubIdx pat rest).map (· + 1)

/-- `s.split("\n")` on character lists. -/
def splitNL : List Char → List (List Char)
  | [] => [[]]
  | c :: rest =>
    if c = '\n' then [] :: splitNL rest
    else
      match splitNL rest with
      | h :: t => (c :: h) :: t
      | [] => [[c]]

/-- Character-list comparison by code point, the model of the default
`localeCompare` collation on the source's ASCII data: `leChars a b` means
`a` compares less-or-equal to `b`. -/
def leChars : List Char → List Char → Bool
  | [], _ => true
  | _ :: _, [] => false
  | a :: as, b :: bs =>
    if a.toNat < b.toNat then true
    else if b.toNat < a.toNat then false
    else leChars as bs

/-- `a.localeCompare(b) <= 0`, modelled as code-point order. -/
def strLe (a b : String) : Bool := leChars a.data b.data

theorem leChars_total (as bs : List Char) : leChars as bs || leChars bs as := by
  induction as generalizing bs with
  | nil => simp [leChars]
  | cons a as ih =>
    cases bs with
    | nil => simp [leChars]
    | cons b bs =>
      simp only [leChars]
      rcases Nat.lt_trichotomy a.toNat b.toNat with h | h | h
      · simp [h]
      · simp [h, Nat.lt_irrefl, ih bs]
      · simp [h, Nat.lt_asymm h]

theorem leChars_trans {as bs cs : List Char} :
    leChars as bs = true → leChars bs cs = true → leChars as cs = true := by
  induction as generalizing bs cs with
  | nil => intro _ _; simp [leChars]
  | cons a as ih =>
    intro h1 h2
    cases bs with
    | nil => simp [leChars] at h1
    | cons b bs =>
      cases cs with
      | nil => simp [leChars] at h2
      | cons c cs =>
        simp only [leChars] at h1 h2 ⊢
        by_cases hab : a.toNat < b.toNat
        · by_cases hbc : b.toNat < c.toNat
          · simp [Nat.lt_trans hab hbc]
          · simp [hab] at h1
            by_cases hcb : c.toNat < b.toNat
            · simp [hbc, hcb] at h2
            · have : b.toNat = c.toNat := Nat.le_antisymm (Nat.le_of_not_lt hcb) (Nat.le_of_not_lt hbc)
              simp [this ▸ hab]
        · by_cases hba : b.toNat < a.toNat
          · simp [hab, hba] at h1
          · have hab' : a.toNat = b.toNat := Nat.le_antisymm (Nat.le_of_not_lt hba) (Nat.le_of_not_lt hab)
            simp [hab, hba] at h1
            by_cases hbc : b.toNat < c.toNat
            · simp [hab' ▸ hbc]
            · by_cases hcb : c.toNat < b.toNat
              · simp [hbc, hcb] at h2
              · have hbc' : b.toNat = c.toNat := Nat.le_antisymm (Nat.le_of_not_lt hcb) (Nat.le_of_not_lt hbc)
                have hac : ¬ a.toNat < c.toNat := by omega
                have hca : ¬ c.toNat < a.toNat := by omega
                simp [hbc, hcb] at h2
                simp [hac, hca, ih h1 h2]

theorem strLe_total (a b : String) : strLe a b || strLe b a := leChars_total a.data b.data

theorem strLe_trans {a b c : String} :
    strLe a b = true → strLe b c = true → strLe a c = true := leChars_trans

/-! ## Data model (`packages/core/src/types.ts`) -/

/-- `EventType` from `types.ts`. -/
inductive EventType where
  | issue_created
  | issue_closed
  | issue_commented
  | pr_opened
  | pr_merged
  | pr_reviewed
  | commit
  | release
  | note
deriving DecidableEq, Repr

/-- `WorkKind` from `types.ts`. -/
inductive WorkKind where
  | issue
  | pr
  | commit
  | release
  | note
deriving DecidableEq, Repr

/-- `WorkStatus` from `types.ts`. -/
inductive WorkStatus where
  | done
  | in_progress
  | blocked
  | planned
  | unknown
deriving DecidableEq, Repr

/-- `milestone?: { title: string; dueOn?: string | null }`. `dueOn` is
`none` for both `undefined` and `null`. -/
structure Milestone where
  title : String
  dueOn : Option String
deriving DecidableEq, Repr

/-- `Event` from `types.ts`. Optional string fields are `Option String`
(`none` = absent). The free-form `fields` map is irrelevant to every claim
and is omitted. -/
structure Event where
  id : String
  provider : String
  repo : Option String := none
  type : EventType
  title : Option String := none
  body : Option String := none
  url : Option String := none
  author : Option String := none
  timestamp : String
  labels : List String := []
  milestone : Option Milestone := none
deriving DecidableEq, Repr

/-- `WorkItem` from `types.ts`. `due` is `none` for both `undefined` and
`null` (neither compares equal to a date string under `===`). -/
structure WorkItem where
  key : String
  kind : WorkKind
  repo : Option String := none
  title : String
  url : Option String := none
  labels : List String := []
  due : Option String := none
  status : WorkStatus
  highlights : List String := []
  evidence : List Event
  stackHints : List String := []
deriving DecidableEq, Repr

/-- `DigestScope` from `types.ts`. -/
structure DigestScope where
  repos : Option (List String) := none
  user : Option String := none
  team : Option String := none
deriving DecidableEq, Repr

/-- `DigestStats` from `types.ts`. -/
structure DigestStats where
  done : Nat
  inProgress : Nat
  blocked : Nat
  dueToday : Nat
deriving DecidableEq, Repr

/-- `DigestSections` from `types.ts`. -/
structure DigestSections where
  dueToday : List WorkItem
  done : List WorkItem
  inProgress : List WorkItem
  blocked : List WorkItem
  next : List WorkItem
  notes : List String
deriving DecidableEq, Repr

/-- `Digest` from `types.ts`. -/
structure Digest where
  date : String
  timezone : String
  scope : DigestScope
  stats : DigestStats
  sections : DigestSections
  stack : Option (List String) := none
deriving DecidableEq, Repr

/-- Instants (`Date` values) are epoch milliseconds. -/
abbrev JsDate := Int

/-- `PipelineContext` from `types.ts`. -/
structure PipelineContext where
  date : Option JsDate := none
  timezone : Option String := none
  scope : Option DigestScope := none

/-- The JavaScript host facilities the core delegates to:
`fmtDate` models `Intl.DateTimeFormat("en-CA", { timeZone }).formatToParts`
reassembled to `YYYY-MM-DD` (`formatDateInTimeZone` in the source);
`nowMs` is the instant produced by a defaulted `new Date()`;
`getTime` models `new Date(ts).getTime()`. -/
structure JsEnv where
  fmtDate : JsDate → String → String
  nowMs : JsDate
  getTime : String → Int

/-! ## Status classifier (`packages/core/src/rules/status-classifier.ts`) -/

/-- `StatusClassifierOptions`. -/
structure StatusClassifierOptions where
  blockedLabels : Option (List String) := none
  nextLabels : Option (List String) := none

/-- `isDoneEvent` from `status-classifier.ts`. -/
def isDoneEvent (event : Event) : Bool :=
  event.type == .issue_closed || event.type == .pr_merged || event.type == .release

/-- The frontmatter regex (caret, three dashes, whitespace-star, newline, then a
non-greedy capture group, then a newline and three dashes) shared by the
classifier's and the due resolver's parsing: the body must start with `---` followed by
a whitespace run containing a newline; the engine splits the run at its last
newline first, backtracking to earlier newlines, and the non-greedy group
captures everything up to the first later occurrence of `"\n---"`. Returns
the captured group. -/
def matchFrontmatter (body : String) : Option String :=
  let l := body.data
  if isPrefList ['-', '-', '-'] l then
    let rest := l.drop 3
    let run := rest.takeWhile isWS
    let positions := (List.range run.length).filter (fun i => run.getD i ' ' = '\n')
    positions.reverse.findSome? (fun p =>
      (findSubIdx ['\n', '-', '-', '-'] (rest.drop (p + 1))).map
        (fun idx => String.mk ((rest.drop (p + 1)).take idx)))
  else none

/-- The characters of `line` after the first `:` and before the second `:`
(or the end): `line.split(":")[1]`, `none` when there is no `:`. -/
def afterFirstColon (line : String) : Option String :=
  match findSubIdx [':'] line.data with
  | none => none
  | some i => some (String.mk ((line.data.drop (i + 1)).takeWhile (· ≠ ':')))

/-- `parseFrontmatterStatus` from `status-classifier.ts`. -/
def parseFrontmatterStatus (body : String) : Option String :=
  match matchFrontmatter body with
  | none => none
  | some content =>
    let statusLine := ((splitNL content.data).map (fun l => jsTrim (String.mk l))).find?
      (fun line => isPrefList "status:".data (jsToLower line).data)
    match statusLine with
    | none => none
    | some line =>
      match afterFirstColon line with
      | none => none
      | some seg => some (jsToLower (jsTrim seg))

/-- The per-event text scan inside `hasBlockedSignals`: a frontmatter
`status: blocked`, or a blocking keyword in the title/body text. -/
def eventHasBlockedSignal (event : Event) : Bool :=
  (match event.body with
   | some b => parseFrontmatterStatus b == some "blocked"
   | none => false) ||
  (let text := jsToLower ((event.title.getD "") ++ " " ++ (event.body.getD ""))
   strHasSub text "blocked" || strHasSub text "stuck" || strHasSub text "waiting on")

/-- `hasBlockedSignals` from `status-classifier.ts`; the lower-cased
blocked-label set is passed as a list. -/
def hasBlockedSignals (item : WorkItem) (blockedLabels : List String) : Bool :=
  item.labels.any (fun label => blockedLabels.contains (jsToLower label)) ||
  item.evidence.any eventHasBlockedSignal

/-- `hasPlannedSignals` from `status-classifier.ts`. -/
def hasPlannedSignals (item : WorkItem) (nextLabels : List String) : Bool :=
  item.labels.any (fun label => nextLabels.contains (jsToLower label))

/-- `hasInProgressSignals` from `status-classifier.ts`. -/
def hasInProgressSignals (item : WorkItem) : Bool :=
  item.evidence.any (fun event =>
    event.type == .issue_created || event.type == .issue_commented ||
    event.type == .pr_opened || event.type == .pr_reviewed || event.type == .commit)

/-- `classifyStatus` from `status-classifier.ts`. -/
def classifyStatus (item : WorkItem) (options : StatusClassifierOptions := {}) : WorkStatus :=
  let blockedLabels := ((options.blockedLabels.getD ["blocked", "stuck"]).map jsToLower)
  let nextLabels := ((options.nextLabels.getD ["next", "planned", "todo"]).map jsToLower)
  if item.evidence.any isDoneEvent then .done
  else if hasBlockedSignals item blockedLabels then .blocked
  else if hasPlannedSignals item nextLabels then .planned
  else if hasInProgressSignals item then .in_progress
  else .unknown

/-! ## Due resolver (`packages/core/src/rules/due-resolver.ts`) -/

/-- One attempt of `DATE_PATTERN` (`20` then two digits, dash, two digits,
dash, two digits) anchored at the head of `l`. -/
def dateAt (l : List Char) : Option String :=
  match l with
  | '2' :: '0' :: a :: b :: '-' :: c :: d :: '-' :: e :: f :: _ =>
    if a.isDigit && b.isDigit && c.isDigit && d.isDigit && e.isDigit && f.isDigit then
      some (String.mk ['2', '0', a, b, '-', c, d, '-', e, f])
    else none
  | _ => none

/-- Leftmost `DATE_PATTERN` match in a character list. -/
def scanDate : List Char → Option String
  | [] => none
  | l@(_ :: rest) =>
    match dateAt l with
    | some d => some d
    | none => scanDate rest

/-- `raw.match(DATE_PATTERN)?.[1]`. -/
def findDatePattern (s : String) : Option String := scanDate s.data

/-- `parseFrontmatter` from `due-resolver.ts`. The JS object accumulator is
modelled as an entry list where a later assignment to the same key appends;
`objLookup` reads the last entry, matching overwrite semantics. -/
def parseFrontmatter (body : String) : List (String × String) :=
  match matchFrontmatter body with
  | none => []
  | some content =>
    (((splitNL content.data).map (fun l => jsTrim (String.mk l))).filter (· ≠ "")).foldl
      (fun acc line =>
        match findSubIdx [':'] line.data with
        | none => acc
        | some sep =>
          if sep = 0 then acc
          else
            let key := jsTrim (String.mk (line.data.take sep))
            let value := jsTrim (String.mk (line.data.drop (sep + 1)))
            if key ≠ "" ∧ value ≠ "" then acc ++ [(key, value)] else acc)
      []

/-- Property lookup on the modelled JS object: the most recent write wins. -/
def objLookup (entries : List (String × String)) (k : String) : Option String :=
  (entries.reverse.find? (fun p => p.1 == k)).map (·.2)

/-- `resolveByMilestone` from `due-resolver.ts`: the loop with early return is
`findSome?`; a falsy (`undefined`/`null`/empty) `dueOn` and a pattern miss both
fall through to the next evidence item. -/
def resolveByMilestone (item : WorkItem) : Option String :=
  item.evidence.findSome? (fun event =>
    match event.milestone with
    | none => none
    | some m =>
      match m.dueOn with
      | none => none
      | some raw => if raw = "" then none else findDatePattern raw)

/-- The anchored label pattern: `due:` or `deadline:`, optional whitespace,
then exactly a `DATE_PATTERN` date up to the end of the label. -/
def labelDueMatch (n : String) : Option String :=
  let l := n.data
  let afterKey : Option (List Char) :=
    if isPrefList "due:".data l then some (l.drop 4)
    else if isPrefList "deadline:".data l then some (l.drop 9)
    else none
  match afterKey with
  | none => none
  | some rest =>
    let rest' := rest.dropWhile isWS
    match dateAt rest' with
    | some d => if rest'.length = 10 then some d else none
    | none => none

/-- `resolveByLabel` from `due-resolver.ts`. -/
def resolveByLabel (item : WorkItem) (today : String) : Option String :=
  item.labels.findSome? (fun label =>
    let normalized := jsToLower (jsTrim label)
    if normalized = "due/today" then some today
    else labelDueMatch normalized)

/-- `resolveByFrontmatter` from `due-resolver.ts`; a falsy body or a missing
or empty `due` key falls through to the next evidence item. -/
def resolveByFrontmatter (item : WorkItem) : Option String :=
  item.evidence.findSome? (fun event =>
    match event.body with
    | none => none
    | some body =>
      if body = "" then none
      else
        match objLookup (parseFrontmatter body) "due" with
        | none => none
        | some due => if due = "" then none else findDatePattern due)

/-- `DueResolution.source` values. -/
inductive DueSource where
  | milestone
  | label
  | frontmatter
  | none
deriving DecidableEq, Repr

/-- `DueResolution` from `due-resolver.ts`. -/
structure DueResolution where
  due : Option String
  source : DueSource
deriving DecidableEq, Repr

/-- `DueResolveOptions` from `due-resolver.ts`. -/
structure DueResolveOptions where
  referenceDate : Option JsDate := none
  timezone : Option String := none

/-- `resolveDue` from `due-resolver.ts`. The truthiness guards on the three
stage results are equivalent to `Option` matching because no stage can return
an empty string (a date match is ten characters). -/
def resolveDue (env : JsEnv) (item : WorkItem) (options : DueResolveOptions := {}) :
    DueResolution :=
  let timezone := options.timezone.getD "UTC"
  let referenceDate := options.referenceDate.getD env.nowMs
  let today := env.fmtDate referenceDate timezone
  match resolveByMilestone item with
  | some d => ⟨some d, .milestone⟩
  | Option.none =>
    match resolveByLabel item today with
    | some d => ⟨some d, .label⟩
    | Option.none =>
      match resolveByFrontmatter item with
      | some d => ⟨some d, .frontmatter⟩
      | Option.none => ⟨Option.none, .none⟩

/-! ## Digest assembly (`packages/core/src/types.ts`) -/

/-- `Set.prototype.add` / first-occurrence deduplication. -/
def addUnique [DecidableEq α] (l : List α) (x : α) : List α :=
  if x ∈ l then l else l ++ [x]

/-- The three-level comparator of `sortWorkItems` as a less-or-equal test:
repo (missing sorts as the empty string), then title, then key. -/
def wiLe (a b : WorkItem) : Bool :=
  let repoA := a.repo.getD ""
  let repoB := b.repo.getD ""
  if repoA ≠ repoB then strLe repoA repoB
  else if a.title ≠ b.title then strLe a.title b.title
  else strLe a.key b.key

/-- The comparator as a relation for the stable sort. -/
def wiRel (a b : WorkItem) : Prop := wiLe a b = true

instance : DecidableRel wiRel := fun a b =>
  inferInstanceAs (Decidable (wiLe a b = true))

/-- `sortWorkItems` from `types.ts`: a stable sort by `wiLe`
(`Array.prototype.sort` is stable, and a stable sort by a total preorder has a
unique result, so any stable sort models it). -/
def sortWorkItems (items : List WorkItem) : List WorkItem :=
  List.insertionSort wiRel items

/-- `createDigest` from `types.ts`. -/
def createDigest (env : JsEnv) (items : List WorkItem) (ctx : PipelineContext := {}) :
    Digest :=
  let timezone := ctx.timezone.getD "UTC"
  let now := ctx.date.getD env.nowMs
  let currentDate := env.fmtDate now timezone
  let dueToday := sortWorkItems (items.filter (fun item => item.due == some currentDate))
  let done := sortWorkItems (items.filter (fun item => item.status == .done))
  let inProgress := sortWorkItems (items.filter (fun item => item.status == .in_progress))
  let blocked := sortWorkItems (items.filter (fun item => item.status == .blocked))
  let next := sortWorkItems (items.filter (fun item => item.status == .planned))
  let stack := ((items.map (·.stackHints)).flatten).foldl addUnique []
  { date := currentDate
    timezone := timezone
    scope := ctx.scope.getD {}
    stats :=
      { done := done.length
        inProgress := inProgress.length
        blocked := blocked.length
        dueToday := dueToday.length }
    sections :=
      { dueToday := dueToday
        done := done
        inProgress := inProgress
        blocked := blocked
        next := next
        notes := [] }
    stack := if stack.length > 0 then some stack else none }

/-! ## Summarizer (`packages/core/src/summarizer.ts`) -/

/-- JS truthiness of an optional string: present and non-empty. -/
def truthyStr (o : Option String) : Bool :=
  match o with
  | some s => s ≠ ""
  | none => false

/-- The first-sentence regex (anchored non-greedy dot-plus, a sentence
terminator, then whitespace or end): the index of the earliest terminator at
position ≥ 1 that is followed by whitespace or the end, with no line
terminator before it. -/
def sentenceScanAux : List Char → Nat → Option Nat
  | [], _ => none
  | c :: rest, i =>
    if (c = '.' ∨ c = '!' ∨ c = '?') ∧ 1 ≤ i ∧ (rest = [] ∨ isWS (rest.headD ' ')) then some i
    else if c = '\n' ∨ c = '\r' then none
    else sentenceScanAux rest (i + 1)

/-- `firstSentence` from `summarizer.ts`. -/
def firstSentence (input : String) : String :=
  let trimmed := jsTrim input
  if trimmed = "" then ""
  else
    jsTrim (match sentenceScanAux trimmed.data 0 with
      | some i => jsTake (i + 1) trimmed
      | none => trimmed)

/-- The descending-by-parsed-timestamp relation of `latestSignalEvent`'s
comparator. -/
def evDescRel (env : JsEnv) (a b : Event) : Prop :=
  env.getTime b.timestamp ≤ env.getTime a.timestamp

instance (env : JsEnv) : DecidableRel (evDescRel env) := fun a b =>
  inferInstanceAs (Decidable (env.getTime b.timestamp ≤ env.getTime a.timestamp))

/-- `latestSignalEvent` from `summarizer.ts`. -/
def latestSignalEvent (env : JsEnv) (events : List Event) : Option Event :=
  (List.insertionSort (evDescRel env) events).find?
    (fun event => truthyStr event.body || truthyStr event.title)

/-- `summarizeWorkItem` from `summarizer.ts`. -/
def summarizeWorkItem (env : JsEnv) (item : WorkItem) (maxHighlights : Nat := 3) :
    List String :=
  let highlights :=
    (if jsLen (jsTrim item.title) > 0 then [firstSentence item.title] else []) ++
    (match latestSignalEvent env item.evidence with
     | some latest =>
       if truthyStr latest.body then [firstSentence (latest.body.getD "")]
       else if truthyStr latest.title then [firstSentence (latest.title.getD "")]
       else []
     | none => [])
  (((highlights.filter (fun h => jsLen h > 0)).foldl addUnique []).take maxHighlights)

/-! ## Aggregator (`packages/cli/src/index.ts`, `normalizeEventsToWorkItems`) -/

/-- The string form of an `EventType`, for the `startsWith` tests of
`normalizeWorkKind`. -/
def eventTypeStr : EventType → String
  | .issue_created => "issue_created"
  | .issue_closed => "issue_closed"
  | .issue_commented => "issue_commented"
  | .pr_opened => "pr_opened"
  | .pr_merged => "pr_merged"
  | .pr_reviewed => "pr_reviewed"
  | .commit => "commit"
  | .release => "release"
  | .note => "note"

/-- `normalizeWorkKind` from `cli/src/index.ts`. -/
def normalizeWorkKind (event : Event) : WorkKind :=
  let t := eventTypeStr event.type
  if isPrefList "issue_".data t.data then .issue
  else if isPrefList "pr_".data t.data then .pr
  else if t = "commit" then .commit
  else if t = "release" then .release
  else .note

/-- Search for `marker` followed by one or more digits followed by the end of
the string or one of `?`, `#`, `/` — the two reference regexes of
`deriveItemKey`; returns the digit run of the leftmost match. -/
def refMatchAux (marker : List Char) : List Char → Option String
  | [] => none
  | l@(_ :: rest) =>
    match
      (if isPrefList marker l then
        let after := l.drop marker.length
        let digits := after.takeWhile Char.isDigit
        let next := after.drop digits.length
        if digits ≠ [] ∧ (next = [] ∨ next.headD ' ' ∈ ['?', '#', '/']) then
          some (String.mk digits)
        else none
      else none) with
    | some d => some d
    | none => refMatchAux marker rest

/-- `deriveItemKey` from `cli/src/index.ts`. -/
def deriveItemKey (event : Event) : String :=
  let url := event.url.getD ""
  if truthyStr event.repo then
    let repo := event.repo.getD ""
    match refMatchAux "/issues/".data url.data with
    | some n => "github:" ++ repo ++ "#" ++ n
    | none =>
      match refMatchAux "/pull/".data url.data with
      | some n => "github:" ++ repo ++ "#" ++ n
      | none => event.provider ++ ":" ++ event.id
  else event.provider ++ ":" ++ event.id

/-- The per-key accumulator entry of `normalizeEventsToWorkItems`. -/
structure EventGroup where
  kind : WorkKind
  repo : Option String
  title : String
  url : Option String
  labels : List String
  evidence : List Event
deriving DecidableEq, Repr

/-- An optional string with JS truthiness applied: empty becomes absent. -/
def truthyOpt (o : Option String) : Option String :=
  match o with
  | some s => if s = "" then none else some s
  | none => none

/-- The label accumulation of one record into the group's label `Set`. -/
def labelsStep (acc : List String) (e : Event) : List String :=
  e.labels.foldl addUnique acc

/-- The `grouped.set(key, {...})` branch of `normalizeEventsToWorkItems`. -/
def newGroup (e : Event) : EventGroup :=
  { kind := normalizeWorkKind e
    repo := truthyOpt e.repo
    title := e.title.getD "(untitled)"
    url := truthyOpt e.url
    labels := labelsStep [] e
    evidence := [e] }

/-- The title-merge rule of `normalizeEventsToWorkItems`: a truthy incoming
title replaces the current one only while the current one is empty or the
placeholder. -/
def titleStep (cur : String) (e : Event) : String :=
  match e.title with
  | some t => if t ≠ "" ∧ (cur = "" ∨ cur = "(untitled)") then t else cur
  | none => cur

/-- The merge branch of `normalizeEventsToWorkItems` for an existing group. -/
def updateGroup (g : EventGroup) (e : Event) : EventGroup :=
  { g with
    title := titleStep g.title e
    url := if truthyStr e.url ∧ ¬ truthyStr g.url then e.url else g.url
    repo := if truthyStr e.repo ∧ ¬ truthyStr g.repo then e.repo else g.repo
    labels := labelsStep g.labels e
    evidence := g.evidence ++ [e] }

/-- One step of the grouping loop; the `Map` is an insertion-ordered
association list with unique keys. -/
def stepGroup (acc : List (String × EventGroup)) (e : Event) : List (String × EventGroup) :=
  let k := deriveItemKey e
  if acc.any (fun p => p.1 == k) then
    acc.map (fun p => if p.1 == k then (p.1, updateGroup p.2 e) else p)
  else acc ++ [(k, newGroup e)]

/-- The grouping loop of `normalizeEventsToWorkItems`. -/
def groupEvents (events : List Event) : List (String × EventGroup) :=
  events.foldl stepGroup []

/-- The ascending-timestamp relation of the evidence sort
(`a.timestamp.localeCompare(b.timestamp)`). -/
def evAscRel (a b : Event) : Prop := strLe a.timestamp b.timestamp = true

instance : DecidableRel evAscRel := fun a b =>
  inferInstanceAs (Decidable (strLe a.timestamp b.timestamp = true))

instance : IsTotal Event evAscRel where
  total a b := by
    have h := strLe_total a.timestamp b.timestamp
    rcases Bool.or_eq_true_iff.mp h with h' | h'
    · exact Or.inl h'
    · exact Or.inr h'

instance : IsTrans Event evAscRel where
  trans _ _ _ := strLe_trans

/-- The `evidence.sort(...)` call: a stable ascending sort by timestamp. -/
def sortEvidence (events : List Event) : List Event :=
  List.insertionSort evAscRel events

/-- The final `Array.from(grouped.entries()).map(...)` projection of
`normalizeEventsToWorkItems`: one `WorkItem` per group, evidence sorted. -/
def mkWorkItem (p : String × EventGroup) : WorkItem :=
  { key := p.1
    kind := p.2.kind
    repo := truthyOpt p.2.repo
    title := p.2.title
    url := truthyOpt p.2.url
    labels := p.2.labels
    status := .unknown
    highlights := []
    evidence := sortEvidence p.2.evidence }

/-- `normalizeEventsToWorkItems` from `cli/src/index.ts`. -/
def normalizeEventsToWorkItems (events : List Event) : List WorkItem :=
  (groupEvents events).map mkWorkItem

/-! ## Thread splitter (`packages/renderer-x/src/index.ts`) -/

/-- The character-wise hard-split loop of `splitLongText`, with explicit fuel
(one unit per emitted piece suffices since each piece removes `m ≥ 1`
characters; the source loop does not terminate for `m = 0`, which no caller
reaches — `renderXDigest` always passes a limit of at least 1). Returns the
emitted pieces and the final remainder. -/
def hardSplitAux (m : Nat) : Nat → List Char → List (List Char) × List Char
  | 0, w => ([], w)
  | fuel + 1, w =>
    if m < w.length ∧ 0 < m then
      let r := hardSplitAux m fuel (w.drop m)
      (w.take m :: r.1, r.2)
    else ([], w)

/-- The `while (remaining.length > maxLength)` loop of `splitLongText`. -/
def hardSplit (m : Nat) (word : String) : List String × String :=
  let r := hardSplitAux m word.data.length word.data
  (r.1.map String.mk, String.mk r.2)

/-- Whitespace tokenization with empties dropped:
`text.split` on a whitespace-run pattern, then `filter(Boolean)`. -/
def wordsAux : List Char → List Char → List (List Char)
  | [], cur => if cur.isEmpty then [] else [cur.reverse]
  | c :: cs, cur =>
    if isWS c then
      (if cur.isEmpty then wordsAux cs [] else cur.reverse :: wordsAux cs [])
    else wordsAux cs (c :: cur)

/-- The `words` list of `splitLongText`. -/
def jsWords (text : String) : List String := (wordsAux text.data []).map String.mk

/-- The body of `splitLongText`'s `for (const word of words)` loop. -/
def sltStep (m : Nat) (st : List String × String) (word : String) : List String × String :=
  let blocks := st.1
  let current := st.2
  let candidate := if current = "" then word else current ++ " " ++ word
  if jsLen candidate ≤ m then (blocks, candidate)
  else if current ≠ "" then (blocks ++ [current], word)
  else
    let r := hardSplit m word
    (blocks ++ r.1, r.2)

/-- `splitLongText` from `renderer-x/src/index.ts`. -/
def splitLongText (text : String) (maxLength : Nat) : List String :=
  if jsLen text ≤ maxLength then [text]
  else
    let r := (jsWords text).foldl (sltStep maxLength) ([], "")
    if r.2 ≠ "" then r.1 ++ [r.2] else r.1

/-- The body of `splitThread`'s `for (const chunk of chunks)` loop. -/
def stStep (m : Nat) (st : List String × String) (chunk : String) : List String × String :=
  let blocks := st.1
  let current := st.2
  let normalized := jsTrim chunk
  if normalized = "" then st
  else
    let candidate := if current = "" then normalized else current ++ "\n" ++ normalized
    if jsLen candidate ≤ m then (blocks, candidate)
    else
      let blocks1 := if current ≠ "" then blocks ++ [current] else blocks
      let split := splitLongText normalized m
      if split.length = 1 then (blocks1, split.headD "")
      else (blocks1 ++ split.dropLast, split.getLastD "")

/-- `splitThread` from `renderer-x/src/index.ts`. -/
def splitThread (chunks : List String) (maxLength : Nat) : List String :=
  let r := chunks.foldl (stStep maxLength) ([], "")
  if r.2 ≠ "" then r.1 ++ [r.2] else r.1

/-- The numbering suffix text for block `i` of `total`. -/
def numberSuffix (i total : Nat) : String :=
  " (" ++ toString i ++ "/" ++ toString total ++ ")"

/-- The per-block body of `applyNumbering`'s `map`. Natural-number
truncated subtraction coincides with the source's `Math.max(0, ...)`
clamping of `maxLength - suffix.length - 1`. -/
def numberOne (maxLength total index : Nat) (block : String) : String :=
  let suffix := numberSuffix (index + 1) total
  let limit := maxLength - jsLen suffix
  let trimmed := if limit < jsLen block then jsTrimEnd (jsTake (limit - 1) block) else block
  trimmed ++ suffix

/-- `blocks.map((block, index) => ...)` with the running index explicit. -/
def applyNumberingGo (maxLength total : Nat) : Nat → List String → List String
  | _, [] => []
  | i, b :: bs => numberOne maxLength total i b :: applyNumberingGo maxLength total (i + 1) bs

/-- `applyNumbering` from `renderer-x/src/index.ts`. -/
def applyNumbering (blocks : List String) (maxLength : Nat) : List String :=
  if blocks.length ≤ 1 then blocks
  else applyNumberingGo maxLength blocks.length 0 blocks

/-- The splitting composition of `renderXDigest` (reserved limit, `splitThread`,
then `applyNumbering` when numbering is on), abstracted over the chunk list.
`max 20 (maxLength - 10)` is the source's `reservedMax`. -/
def renderXBlocks (segments : List String) (maxLength : Nat) (numbering : Bool) :
    List String :=
  let reservedMax := if numbering then max 20 (maxLength - 10) else maxLength
  let rawBlocks := splitThread segments reservedMax
  if numbering then applyNumbering rawBlocks maxLength else rawBlocks

/-! ## Pipeline enrichment (`runPipeline` in `packages/core/src/types.ts`) -/

/-- The observable outcome of one call of the optional summarizer hook:
it throws/rejects, or returns a value (`none` models `null`/`undefined`). -/
inductive HookOutcome where
  | throws
  | returns (value : Option (List String))

/-- The hook-result handling inside `runPipeline`'s loop: a non-empty array
replaces the built-in highlights after trimming, dropping now-empty entries
and truncating to five; everything else falls back to the built-in result. -/
def applyHookHighlights (builtin : List String) (o : HookOutcome) : List String :=
  match o with
  | .throws => builtin
  | .returns none => builtin
  | .returns (some l) =>
    if l.length > 0 then ((l.map jsTrim).filter (fun s => s ≠ "")).take 5 else builtin

/-- One iteration of `runPipeline`'s enrichment loop over normalized items. -/
def enrichWorkItem (env : JsEnv) (ctx : PipelineContext)
    (hook : Option (WorkItem → HookOutcome)) (item : WorkItem) : WorkItem :=
  let dueOptions : DueResolveOptions := { referenceDate := ctx.date, timezone := ctx.timezone }
  let due := (resolveDue env item dueOptions).due
  let status := classifyStatus item
  let builtin := summarizeWorkItem env item
  let highlights :=
    match hook with
    | none => builtin
    | some h => applyHookHighlights builtin (h item)
  { item with due := due, status := status, highlights := highlights }

/-- `runPipeline` composed with the CLI's `normalize` step, returning the
digest: collect is the given event list, each normalized item is enriched as
in `runPipeline`'s loop, and `createDigest` assembles the result. -/
def runPipelineDigest (env : JsEnv) (ctx : PipelineContext)
    (hook : Option (WorkItem → HookOutcome)) (events : List Event) : Digest :=
  createDigest env ((normalizeEventsToWorkItems events).map (enrichWorkItem env ctx hook)) ctx

/-! ## Lemmas about the aggregator's grouping loop -/

theorem mem_addUnique [DecidableEq α] (acc : List α) (a x : α) :
    x ∈ addUnique acc a ↔ x ∈ acc ∨ x = a := by
  unfold addUnique
  by_cases h : a ∈ acc
  · simp only [if_pos h]
    constructor
    · exact Or.inl
    · rintro (hx | rfl)
      · exact hx
      · exact h
  · simp [if_neg h]

theorem mem_foldl_addUnique [DecidableEq α] (ls : List α) (acc : List α) (x : α) :
    x ∈ ls.foldl addUnique acc ↔ x ∈ acc ∨ x ∈ ls := by
  induction ls generalizing acc with
  | nil => simp
  | cons a t ih =>
    simp only [List.foldl_cons, ih, mem_addUnique, List.mem_cons]
    tauto

theorem nodup_addUnique [DecidableEq α] (acc : List α) (a : α) (h : acc.Nodup) :
    (addUnique acc a).Nodup := by
  unfold addUnique
  by_cases ha : a ∈ acc
  · simpa [if_pos ha]
  · simp [if_neg ha, List.nodup_append, h, ha]

theorem nodup_foldl_addUnique [DecidableEq α] (ls : List α) (acc : List α) (h : acc.Nodup) :
    (ls.foldl addUnique acc).Nodup := by
  induction ls generalizing acc with
  | nil => simpa
  | cons a t ih => exact ih _ (nodup_addUnique _ _ h)

/-- The entry for key `k` in the modelled `Map`. -/
def entryFind (acc : List (String × EventGroup)) (k : String) : Option (String × EventGroup) :=
  acc.find? (fun p => p.1 == k)

/-- The evidence of key `k`'s entry (empty when absent). -/
def entryEvidence (acc : List (String × EventGroup)) (k : String) : List Event :=
  match entryFind acc k with
  | some p => p.2.evidence
  | none => []

/-- The labels of key `k`'s entry (empty when absent). -/
def entryLabels (acc : List (String × EventGroup)) (k : String) : List String :=
  match entryFind acc k with
  | some p => p.2.labels
  | none => []

/-- The title of key `k`'s entry, when present. -/
def entryTitleOpt (acc : List (String × EventGroup)) (k : String) : Option String :=
  (entryFind acc k).map (fun p => p.2.title)

theorem entryFind_map_update (acc : List (String × EventGroup)) (k k' : String) (e : Event) :
    entryFind (acc.map (fun p => if p.1 == k' then (p.1, updateGroup p.2 e) else p)) k =
      (entryFind acc k).map (fun p => if p.1 == k' then (p.1, updateGroup p.2 e) else p) := by
  induction acc with
  | nil => rfl
  | cons a t ih =>
    have hfst : (if a.1 == k' then (a.1, updateGroup a.2 e) else a).1 = a.1 := by
      by_cases h : a.1 == k' <;> simp [h]
    have hmap : ((if a.1 == k' then (a.1, updateGroup a.2 e) else a).1 == k) = (a.1 == k) := by
      rw [hfst]
    cases hk : (a.1 == k) with
    | true =>
      simp only [entryFind, List.map_cons, List.find?_cons, hmap, hk]
      simp
    | false =>
      simp only [entryFind, List.map_cons, List.find?_cons, hmap, hk]
      exact ih

theorem any_key_iff (acc : List (String × EventGroup)) (k : String) :
    acc.any (fun p => p.1 == k) = true ↔ ∃ p ∈ acc, p.1 = k := by
  simp [List.any_eq_true]

theorem entryFind_step (acc : List (String × EventGroup)) (e : Event) (k : String) :
    entryFind (stepGroup acc e) k =
      if deriveItemKey e = k then
        match entryFind acc k with
        | some p => some (p.1, updateGroup p.2 e)
        | none => some (k, newGroup e)
      else entryFind acc k := by
  by_cases hany : acc.any (fun p => p.1 == deriveItemKey e) = true
  · have hstep : stepGroup acc e =
        acc.map (fun p => if p.1 == deriveItemKey e then (p.1, updateGroup p.2 e) else p) := by
      unfold stepGroup
      rw [if_pos hany]
    rw [hstep, entryFind_map_update]
    by_cases hk : deriveItemKey e = k
    · subst hk
      simp only [if_pos rfl]
      cases hfind : entryFind acc (deriveItemKey e) with
      | none =>
        exfalso
        obtain ⟨p, hp, hpk⟩ := (any_key_iff acc (deriveItemKey e)).mp hany
        have := List.find?_eq_none.mp hfind p hp
        simp [hpk] at this
      | some p =>
        have hpk : p.1 = deriveItemKey e := by
          have := List.find?_some hfind
          simpa using this
        simp [hpk]
    · simp only [if_neg hk]
      cases hfind : entryFind acc k with
      | none => rfl
      | some p =>
        have hpk : p.1 = k := by
          have := List.find?_some hfind
          simpa using this
        have hne : ¬ p.1 = deriveItemKey e := fun hcon => hk (hcon.symm.trans hpk)
        simp [hne]
  · have hstep : stepGroup acc e = acc ++ [(deriveItemKey e, newGroup e)] := by
      unfold stepGroup
      rw [if_neg hany]
    rw [hstep]
    have happ : entryFind (acc ++ [(deriveItemKey e, newGroup e)]) k =
        (entryFind acc k).or (entryFind [(deriveItemKey e, newGroup e)] k) := by
      unfold entryFind
      exact List.find?_append
    rw [happ]
    by_cases hk : deriveItemKey e = k
    · subst hk
      have hnone : entryFind acc (deriveItemKey e) = none := by
        unfold entryFind
        rw [List.find?_eq_none]
        intro p hp
        simp only [Bool.not_eq_true, beq_eq_false_iff_ne, ne_eq]
        intro hcon
        exact hany ((any_key_iff acc (deriveItemKey e)).mpr ⟨p, hp, hcon⟩)
      rw [hnone]
      simp [entryFind, List.find?]
    · have hne : (((deriveItemKey e, newGroup e) : String × EventGroup).1 == k) = false := by
        simpa using hk
      have hsingle : entryFind [(deriveItemKey e, newGroup e)] k = none := by
        simp [entryFind, List.find?, hne]
      rw [hsingle, if_neg hk]
      cases hfind : entryFind acc k with
      | none => rfl
      | some p => rfl

theorem entryEvidence_step (acc : List (String × EventGroup)) (e : Event) (k : String) :
    entryEvidence (stepGroup acc e) k =
      entryEvidence acc k ++ (if deriveItemKey e = k then [e] else []) := by
  unfold entryEvidence
  rw [entryFind_step]
  by_cases hk : deriveItemKey e = k
  · rw [if_pos hk, if_pos hk]
    cases hfind : entryFind acc k with
    | none => simp [newGroup]
    | some p => simp [updateGroup]
  · rw [if_neg hk, if_neg hk]
    simp

theorem entryEvidence_foldl (evs : List Event) (acc : List (String × EventGroup)) (k : String) :
    entryEvidence (evs.foldl stepGroup acc) k =
      entryEvidence acc k ++ evs.filter (fun e => deriveItemKey e == k) := by
  induction evs generalizing acc with
  | nil => simp
  | cons e t ih =>
    rw [List.foldl_cons, ih, entryEvidence_step, List.append_assoc]
    congr 1
    by_cases hk : deriveItemKey e = k
    · rw [if_pos hk, List.filter_cons]
      simp [hk]
    · rw [if_neg hk, List.filter_cons]
      simp [hk]

theorem entryLabels_step (acc : List (String × EventGroup)) (e : Event) (k : String) :
    entryLabels (stepGroup acc e) k =
      if deriveItemKey e = k then labelsStep (entryLabels acc k) e else entryLabels acc k := by
  unfold entryLabels
  rw [entryFind_step]
  by_cases hk : deriveItemKey e = k
  · rw [if_pos hk, if_pos hk]
    cases hfind : entryFind acc k with
    | none => simp [newGroup]
    | some p => simp [updateGroup]
  · rw [if_neg hk, if_neg hk]

theorem entryLabels_foldl (evs : List Event) (acc : List (String × EventGroup)) (k : String) :
    entryLabels (evs.foldl stepGroup acc) k =
      (evs.filter (fun e => deriveItemKey e == k)).foldl labelsStep (entryLabels acc k) := by
  induction evs generalizing acc with
  | nil => simp
  | cons e t ih =>
    rw [List.foldl_cons, ih, entryLabels_step, List.filter_cons]
    by_cases hk : deriveItemKey e = k
    · simp [hk]
    · simp [hk]

theorem entryTitleOpt_step (acc : List (String × EventGroup)) (e : Event) (k : String) :
    entryTitleOpt (stepGroup acc e) k =
      if deriveItemKey e = k then
        match entryTitleOpt acc k with
        | some cur => some (titleStep cur e)
        | none => some (e.title.getD "(untitled)")
      else entryTitleOpt acc k := by
  unfold entryTitleOpt
  rw [entryFind_step]
  by_cases hk : deriveItemKey e = k
  · rw [if_pos hk, if_pos hk]
    cases hfind : entryFind acc k with
    | none => simp [newGroup]
    | some p => simp [updateGroup]
  · rw [if_neg hk, if_neg hk]

theorem entryTitleOpt_foldl (evs : List Event) (acc : List (String × EventGroup)) (k : String) :
    entryTitleOpt (evs.foldl stepGroup acc) k =
      match entryTitleOpt acc k, evs.filter (fun e => deriveItemKey e == k) with
      | some cur, fs => some (fs.foldl titleStep cur)
      | none, [] => none
      | none, e0 :: rest => some (rest.foldl titleStep (e0.title.getD "(untitled)")) := by
  induction evs generalizing acc with
  | nil =>
    cases h : entryTitleOpt acc k with
    | none => simp [h]
    | some cur => simp [h]
  | cons e t ih =>
    rw [List.foldl_cons, ih, entryTitleOpt_step]
    by_cases hk : deriveItemKey e = k
    · have hk' : (deriveItemKey e == k) = true := by simpa using hk
      cases h : entryTitleOpt acc k with
      | none => simp [hk, hk', h, List.filter_cons]
      | some cur => simp [hk, hk', h, List.filter_cons]
    · have hk' : (deriveItemKey e == k) = false := by simpa using hk
      cases h : entryTitleOpt acc k with
      | none => simp [hk, hk', h, List.filter_cons]
      | some cur => simp [hk, hk', h, List.filter_cons]

/-- The insertion-ordered key list of the modelled `Map`. -/
def keysOf (acc : List (String × EventGroup)) : List String := acc.map Prod.fst

theorem keysOf_step (acc : List (String × EventGroup)) (e : Event) :
    keysOf (stepGroup acc e) = addUnique (keysOf acc) (deriveItemKey e) := by
  unfold stepGroup addUnique
  by_cases hany : acc.any (fun p => p.1 == deriveItemKey e) = true
  · rw [if_pos hany]
    have hmem : deriveItemKey e ∈ keysOf acc := by
      obtain ⟨p, hp, hpk⟩ := (any_key_iff acc (deriveItemKey e)).mp hany
      exact hpk ▸ List.mem_map_of_mem Prod.fst hp
    rw [if_pos hmem]
    unfold keysOf
    rw [List.map_map]
    apply List.map_congr_left
    intro p _
    by_cases h : p.1 = deriveItemKey e <;> simp [h]
  · rw [if_neg hany]
    have hmem : deriveItemKey e ∉ keysOf acc := by
      intro hmem
      obtain ⟨p, hp, hpk⟩ := List.mem_map.mp hmem
      exact hany ((any_key_iff acc (deriveItemKey e)).mpr ⟨p, hp, hpk⟩)
    rw [if_neg hmem]
    unfold keysOf
    simp

theorem keysOf_foldl (evs : List Event) (acc : List (String × EventGroup)) :
    keysOf (evs.foldl stepGroup acc) = (evs.map deriveItemKey).foldl addUnique (keysOf acc) := by
  induction evs generalizing acc with
  | nil => rfl
  | cons e t ih => rw [List.foldl_cons, ih, keysOf_step, List.map_cons, List.foldl_cons]

theorem keysOf_groupEvents_nodup (evs : List Event) : (keysOf (groupEvents evs)).Nodup := by
  unfold groupEvents
  rw [keysOf_foldl]
  exact nodup_foldl_addUnique _ _ (by simp [keysOf])

theorem mem_keysOf_groupEvents (evs : List Event) (k : String) :
    k ∈ keysOf (groupEvents evs) ↔ ∃ e ∈ evs, deriveItemKey e = k := by
  unfold groupEvents
  rw [keysOf_foldl, mem_foldl_addUnique]
  simp [keysOf, eq_comm]

theorem entryFind_of_mem (acc : List (String × EventGroup)) (k : String) (g : EventGroup)
    (hnd : (keysOf acc).Nodup) (hmem : (k, g) ∈ acc) : entryFind acc k = some (k, g) := by
  induction acc with
  | nil => simp at hmem
  | cons a t ih =>
    rcases List.mem_cons.mp hmem with rfl | hmem'
    · unfold entryFind
      rw [List.find?_cons_of_pos]
      simp
    · have hk : a.1 ≠ k := by
        intro hak
        have : k ∈ keysOf t := by
          exact List.mem_map_of_mem Prod.fst hmem'
        rw [keysOf, List.map_cons, List.nodup_cons] at hnd
        exact hnd.1 (hak ▸ this)
      unfold entryFind
      rw [List.find?_cons_of_neg]
      · exact ih (by rw [keysOf, List.map_cons, List.nodup_cons] at hnd; exact hnd.2) hmem'
      · simpa using hk

theorem entryFind_groupEvents (evs : List Event) (k : String) (g : EventGroup)
    (hmem : (k, g) ∈ groupEvents evs) : entryFind (groupEvents evs) k = some (k, g) :=
  entryFind_of_mem _ _ _ (keysOf_groupEvents_nodup evs) hmem

/-- The canonical evidence of key `k`: its records in arrival order. -/
def itemEvidence (evs : List Event) (k : String) : List Event :=
  evs.filter (fun e => deriveItemKey e == k)

/-- The canonical label list of key `k`. -/
def itemLabels (evs : List Event) (k : String) : List String :=
  (itemEvidence evs k).foldl labelsStep []

theorem group_evidence_eq (evs : List Event) (k : String) (g : EventGroup)
    (hmem : (k, g) ∈ groupEvents evs) : g.evidence = itemEvidence evs k := by
  have h := entryEvidence_foldl evs [] k
  unfold groupEvents at hmem
  rw [show entryEvidence [] k = [] from rfl] at h
  rw [List.nil_append] at h
  have hfind := entryFind_groupEvents evs k g hmem
  unfold groupEvents at hfind
  unfold entryEvidence at h
  rw [hfind] at h
  exact h

theorem group_labels_eq (evs : List Event) (k : String) (g : EventGroup)
    (hmem : (k, g) ∈ groupEvents evs) : g.labels = itemLabels evs k := by
  have h := entryLabels_foldl evs [] k
  rw [show entryLabels [] k = [] from rfl] at h
  have hfind := entryFind_groupEvents evs k g hmem
  unfold groupEvents at hfind
  unfold entryLabels at h
  rw [hfind] at h
  exact h

theorem group_title_eq (evs : List Event) (k : String) (g : EventGroup)
    (hmem : (k, g) ∈ groupEvents evs) :
    ∃ e0 rest, itemEvidence evs k = e0 :: rest ∧
      g.title = rest.foldl titleStep (e0.title.getD "(untitled)") := by
  have h := entryTitleOpt_foldl evs [] k
  rw [show entryTitleOpt [] k = none from rfl] at h
  have hfind := entryFind_groupEvents evs k g hmem
  unfold groupEvents at hfind
  unfold entryTitleOpt at h
  rw [hfind] at h
  cases hfs : evs.filter (fun e => deriveItemKey e == k) with
  | nil =>
    rw [hfs] at h
    simp at h
  | cons e0 rest =>
    rw [hfs] at h
    refine ⟨e0, rest, hfs, ?_⟩
    simpa using h

/-! ## Digest assembly lemmas -/

theorem mem_sortWorkItems (items : List WorkItem) (it : WorkItem) :
    it ∈ sortWorkItems items ↔ it ∈ items :=
  (List.perm_insertionSort wiRel items).mem_iff

theorem length_sortWorkItems (items : List WorkItem) :
    (sortWorkItems items).length = items.length :=
  (List.perm_insertionSort wiRel items).length_eq

theorem createDigest_date (env : JsEnv) (items : List WorkItem) (ctx : PipelineContext) :
    (createDigest env items ctx).date = env.fmtDate (ctx.date.getD env.nowMs) (ctx.timezone.getD "UTC") := rfl

theorem mem_digest_dueToday (env : JsEnv) (items : List WorkItem) (ctx : PipelineContext)
    (it : WorkItem) :
    it ∈ (createDigest env items ctx).sections.dueToday ↔
      it ∈ items ∧ it.due = some (createDigest env items ctx).date := by
  show it ∈ sortWorkItems (items.filter fun i =>
    i.due == some (env.fmtDate (ctx.date.getD env.nowMs) (ctx.timezone.getD "UTC"))) ↔ _
  rw [mem_sortWorkItems, List.mem_filter]
  simp [createDigest_date]

theorem mem_digest_done (env : JsEnv) (items : List WorkItem) (ctx : PipelineContext)
    (it : WorkItem) :
    it ∈ (createDigest env items ctx).sections.done ↔ it ∈ items ∧ it.status = .done := by
  show it ∈ sortWorkItems (items.filter fun i => i.status == .done) ↔ _
  rw [mem_sortWorkItems, List.mem_filter]
  simp

theorem mem_digest_inProgress (env : JsEnv) (items : List WorkItem) (ctx : PipelineContext)
    (it : WorkItem) :
    it ∈ (createDigest env items ctx).sections.inProgress ↔
      it ∈ items ∧ it.status = .in_progress := by
  show it ∈ sortWorkItems (items.filter fun i => i.status == .in_progress) ↔ _
  rw [mem_sortWorkItems, List.mem_filter]
  simp

theorem mem_digest_blocked (env : JsEnv) (items : List WorkItem) (ctx : PipelineContext)
    (it : WorkItem) :
    it ∈ (createDigest env items ctx).sections.blocked ↔
      it ∈ items ∧ it.status = .blocked := by
  show it ∈ sortWorkItems (items.filter fun i => i.status == .blocked) ↔ _
  rw [mem_sortWorkItems, List.mem_filter]
  simp

theorem mem_digest_next (env : JsEnv) (items : List WorkItem) (ctx : PipelineContext)
    (it : WorkItem) :
    it ∈ (createDigest env items ctx).sections.next ↔ it ∈ items ∧ it.status = .planned := by
  show it ∈ sortWorkItems (items.filter fun i => i.status == .planned) ↔ _
  rw [mem_sortWorkItems, List.mem_filter]
  simp

/-! ## Status classifier lemmas -/

theorem classifyStatus_congr (a b : WorkItem) (opts : StatusClassifierOptions)
    (hl : ∀ x : String, x ∈ a.labels ↔ x ∈ b.labels)
    (he : ∀ x : Event, x ∈ a.evidence ↔ x ∈ b.evidence) :
    classifyStatus a opts = classifyStatus b opts := by
  have hany_ev : ∀ f : Event → Bool, a.evidence.any f = b.evidence.any f := by
    intro f
    rw [Bool.eq_iff_iff]
    simp only [List.any_eq_true]
    constructor
    · rintro ⟨x, hx, hfx⟩
      exact ⟨x, (he x).mp hx, hfx⟩
    · rintro ⟨x, hx, hfx⟩
      exact ⟨x, (he x).mpr hx, hfx⟩
  have hany_lb : ∀ f : String → Bool, a.labels.any f = b.labels.any f := by
    intro f
    rw [Bool.eq_iff_iff]
    simp only [List.any_eq_true]
    constructor
    · rintro ⟨x, hx, hfx⟩
      exact ⟨x, (hl x).mp hx, hfx⟩
    · rintro ⟨x, hx, hfx⟩
      exact ⟨x, (hl x).mpr hx, hfx⟩
  unfold classifyStatus hasBlockedSignals hasPlannedSignals hasInProgressSignals
  simp only [hany_ev, hany_lb]

theorem classifyStatus_eq_of_fields (a b : WorkItem) (opts : StatusClassifierOptions)
    (hl : a.labels = b.labels) (he : a.evidence = b.evidence) :
    classifyStatus a opts = classifyStatus b opts :=
  classifyStatus_congr a b opts (fun x => by rw [hl]) (fun x => by rw [he])

/-! ## Thread splitter lemmas -/

theorem applyNumberingGo_length (L total i : Nat) (bs : List String) :
    (applyNumberingGo L total i bs).length = bs.length := by
  induction bs generalizing i with
  | nil => rfl
  | cons b t ih => simp [applyNumberingGo, ih]

theorem applyNumberingGo_getD (L total : Nat) (bs : List String) :
    ∀ i j, j < bs.length →
      (applyNumberingGo L total i bs).getD j "" = numberOne L total (i + j) (bs.getD j "") := by
  induction bs with
  | nil => intro i j h; simp at h
  | cons b t ih =>
    intro i j h
    cases j with
    | zero => simp [applyNumberingGo]
    | succ j' =>
      have hj : j' < t.length := by simpa using h
      simp only [applyNumberingGo, List.getD_cons_succ]
      rw [ih (i + 1) j' hj]
      congr 1
      omega

/-! ## Claim theorems -/

/-- C3: a work unit whose evidence contains a close/merge/release-type event
(`issue_closed`, `pr_merged`, `release`) classifies as `done`, regardless of
any blocked labels or blocking keyword text, because the done check is first
in `classifyStatus`'s priority chain. -/
theorem claim3_done_outranks_blocked (item : WorkItem) (options : StatusClassifierOptions)
    (h : item.evidence.any isDoneEvent = true) :
    classifyStatus item options = .done := by
  unfold classifyStatus
  simp [h]

/-- The closed-issue record of the C3 input. -/
def evC3 : Event :=
  { id := "1"
    provider := "github"
    type := .issue_closed
    title := some "Ship it"
    body := some "waiting on review"
    timestamp := "2026-02-14T01:00:00Z" }

/-- A concrete C3 input: a closed issue that also carries a `blocked` label
and "waiting on" body text. -/
def itemC3 : WorkItem :=
  { key := "github:acme/repo#7"
    kind := .issue
    title := "Ship it"
    labels := ["blocked"]
    status := .unknown
    evidence := [evC3] }

/-- C3 witness: the theorem applied at `itemC3`. -/
theorem claim3_witness :
    itemC3.evidence.any isDoneEvent = true ∧ classifyStatus itemC3 {} = .done :=
  ⟨by decide, claim3_done_outranks_blocked itemC3 {} (by decide)⟩

/-- C2: in every digest produced by `createDigest`, the four stats equal the
lengths of the corresponding sections; a work unit is in `dueToday` iff its
`due` equals the digest's `date`; and membership in `done`, `inProgress`,
`blocked`, `next` is exactly status equality with `done`, `in_progress`,
`blocked`, `planned` respectively — so each unit is in exactly one of the four
status buckets when its status is one of those, and in none when `unknown`. -/
theorem claim2_digest_invariants (env : JsEnv) (items : List WorkItem) (ctx : PipelineContext) :
    ((createDigest env items ctx).stats.done = (createDigest env items ctx).sections.done.length ∧
     (createDigest env items ctx).stats.inProgress =
       (createDigest env items ctx).sections.inProgress.length ∧
     (createDigest env items ctx).stats.blocked =
       (createDigest env items ctx).sections.blocked.length ∧
     (createDigest env items ctx).stats.dueToday =
       (createDigest env items ctx).sections.dueToday.length) ∧
    (∀ it : WorkItem, it ∈ (createDigest env items ctx).sections.dueToday ↔
       it ∈ items ∧ it.due = some (createDigest env items ctx).date) ∧
    (∀ it : WorkItem, it ∈ (createDigest env items ctx).sections.done ↔
       it ∈ items ∧ it.status = .done) ∧
    (∀ it : WorkItem, it ∈ (createDigest env items ctx).sections.inProgress ↔
       it ∈ items ∧ it.status = .in_progress) ∧
    (∀ it : WorkItem, it ∈ (createDigest env items ctx).sections.blocked ↔
       it ∈ items ∧ it.status = .blocked) ∧
    (∀ it : WorkItem, it ∈ (createDigest env items ctx).sections.next ↔
       it ∈ items ∧ it.status = .planned) := by
  refine ⟨⟨rfl, rfl, rfl, rfl⟩, ?_, ?_, ?_, ?_, ?_⟩
  · exact mem_digest_dueToday env items ctx
  · exact mem_digest_done env items ctx
  · exact mem_digest_inProgress env items ctx
  · exact mem_digest_blocked env items ctx
  · exact mem_digest_next env items ctx

/-- C10: whenever the summarizer hook returns a non-empty array, the enriched
item's highlights are the hook's entries trimmed, with now-empty entries
dropped, truncated to the first five — and when every hook entry is
whitespace, the result is the empty list, not the built-in highlights. -/
theorem claim10_hook_overrides (env : JsEnv) (ctx : PipelineContext)
    (h : WorkItem → HookOutcome) (item : WorkItem) (l : List String)
    (hret : h item = .returns (some l)) (hne : l ≠ []) :
    (enrichWorkItem env ctx (some h) item).highlights =
      ((l.map jsTrim).filter (fun s => s ≠ "")).take 5 ∧
    ((∀ s ∈ l, jsTrim s = "") → (enrichWorkItem env ctx (some h) item).highlights = []) := by
  have hlen : 0 < l.length := List.length_pos.mpr hne
  have hmain : (enrichWorkItem env ctx (some h) item).highlights =
      ((l.map jsTrim).filter (fun s => s ≠ "")).take 5 := by
    show applyHookHighlights (summarizeWorkItem env item) (h item) = _
    rw [hret]
    show (if 0 < l.length then ((l.map jsTrim).filter (fun s => s ≠ "")).take 5
      else summarizeWorkItem env item) = _
    rw [if_pos hlen]
  refine ⟨hmain, fun hws => ?_⟩
  rw [hmain]
  have : (l.map jsTrim).filter (fun s => s ≠ "") = [] := by
    rw [List.filter_eq_nil_iff]
    intro s hs
    obtain ⟨x, hx, rfl⟩ := List.mem_map.mp hs
    simp [hws x hx]
  rw [this]
  rfl

/-- A hook returning only whitespace entries, for the C10 witness. -/
def hookC10 : WorkItem → HookOutcome := fun _ => .returns (some ["  ", "\t"])

/-- The created-issue record of the C10 input. -/
def evC10 : Event :=
  { id := "1"
    provider := "github"
    type := .issue_created
    title := some "Fix login bug"
    timestamp := "2026-02-14T01:00:00Z" }

/-- A concrete work item for the C10 witness; its built-in highlights are
non-empty, so the empty override is observable. -/
def itemC10 : WorkItem :=
  { key := "github:acme/repo#1"
    kind := .issue
    title := "Fix login bug"
    status := .unknown
    evidence := [evC10] }

/-- The concrete environment used by witnesses. -/
def envW : JsEnv :=
  { fmtDate := fun _ _ => "2026-02-14", nowMs := 0, getTime := fun _ => 0 }

/-- C10 witness: the theorem applied at a whitespace-only hook result. -/
theorem claim10_witness :
    hookC10 itemC10 = .returns (some ["  ", "\t"]) ∧
    (enrichWorkItem envW {} (some hookC10) itemC10).highlights = [] := by
  refine ⟨rfl, ?_⟩
  exact (claim10_hook_overrides envW {} hookC10 itemC10 ["  ", "\t"] rfl (by decide)).2
    (by decide)

/-- C7: `applyNumbering` leaves a single block (or fewer) untouched and, when
numbering is off, `renderXBlocks` applies no numbering at all; with `N > 1`
blocks, block `i` becomes `t ++ " (i/N)"` where `t` is the block's own text,
trimmed (never the suffix) exactly when the suffix would overflow the limit. -/
theorem claim7_numbering_exact (blocks : List String) (L : Nat) :
    (∀ segments, renderXBlocks segments L false = splitThread segments L) ∧
    (blocks.length ≤ 1 → applyNumbering blocks L = blocks) ∧
    (1 < blocks.length →
      (applyNumbering blocks L).length = blocks.length ∧
      ∀ i, i < blocks.length →
        ∃ t, (applyNumbering blocks L).getD i "" = t ++ numberSuffix (i + 1) blocks.length ∧
          (t = blocks.getD i "" ∨
            t = jsTrimEnd (jsTake (L - jsLen (numberSuffix (i + 1) blocks.length) - 1)
              (blocks.getD i "")))) := by
  refine ⟨fun segments => rfl, fun hle => ?_, fun hgt => ?_⟩
  · unfold applyNumbering
    rw [if_pos hle]
  · have hno : ¬ blocks.length ≤ 1 := by omega
    constructor
    · unfold applyNumbering
      rw [if_neg hno]
      exact applyNumberingGo_length _ _ _ _
    · intro i hi
      unfold applyNumbering
      rw [if_neg hno]
      rw [applyNumberingGo_getD _ _ _ 0 i hi, Nat.zero_add]
      simp only [numberOne]
      by_cases hlim : L - jsLen (numberSuffix (i + 1) blocks.length) < jsLen (blocks.getD i "")
      · refine ⟨jsTrimEnd (jsTake (L - jsLen (numberSuffix (i + 1) blocks.length) - 1)
          (blocks.getD i "")), ?_, Or.inr rfl⟩
        rw [if_pos hlim]
      · refine ⟨blocks.getD i "", ?_, Or.inl rfl⟩
        rw [if_neg hlim]

/-- C7 witness: the theorem applied at a two-block list where the first block
must be trimmed for its suffix and the second fits. -/
theorem claim7_witness :
    ∃ t, (applyNumbering ["hello world this is a block", "second"] 20).getD 0 "" =
        t ++ numberSuffix (0 + 1) 2 ∧
      (t = (["hello world this is a block", "second"] : List String).getD 0 "" ∨
        t = jsTrimEnd (jsTake (20 - jsLen (numberSuffix (0 + 1) 2) - 1)
          ((["hello world this is a block", "second"] : List String).getD 0 ""))) :=
  ((claim7_numbering_exact ["hello world this is a block", "second"] 20).2.2
    (by decide)).2 0 (by decide)

/-- C1: the claimed length invariant fails. At segments
`["aaaa bbbbbb"]` with `L = 5` and numbering off, the splitter emits the
block `"bbbbbb"` of length 6 > 5: `splitLongText` never re-wraps an over-long
word that arrives while the current buffer is non-empty, so the word is later
flushed as an oversized block. The repository's own splitter test asserts
blocks stay "within limit", so the claim reflects the intent and this is a
code defect. -/
theorem claim1_length_violation :
    renderXBlocks ["aaaa bbbbbb"] 5 false = ["aaaa", "bbbbbb"] ∧
    (renderXBlocks ["aaaa bbbbbb"] 5 false).any (fun b => 5 < jsLen b) = true :=
  ⟨by decide, by decide⟩

/-- C6: `resolveDue` is the first-match-wins chain milestone → label →
frontmatter → none, where the label stage resolves a `due/today` label to the
reference instant's calendar date in the given time zone and otherwise only a
`due:`/`deadline:` date pattern, and a milestone (resp. frontmatter) result
always comes from a non-empty milestone due field (resp. a `due` key of a
leading frontmatter block) of some evidence record. -/
theorem claim6_due_priority_chain (env : JsEnv) (item : WorkItem) (options : DueResolveOptions) :
    (∀ d, resolveByMilestone item = some d →
      resolveDue env item options = ⟨some d, .milestone⟩) ∧
    (resolveByMilestone item = none →
      ∀ d, resolveByLabel item
          (env.fmtDate (options.referenceDate.getD env.nowMs) (options.timezone.getD "UTC")) = some d →
        resolveDue env item options = ⟨some d, .label⟩) ∧
    (resolveByMilestone item = none →
      resolveByLabel item
        (env.fmtDate (options.referenceDate.getD env.nowMs) (options.timezone.getD "UTC")) = none →
      ∀ d, resolveByFrontmatter item = some d →
        resolveDue env item options = ⟨some d, .frontmatter⟩) ∧
    (resolveByMilestone item = none →
      resolveByLabel item
        (env.fmtDate (options.referenceDate.getD env.nowMs) (options.timezone.getD "UTC")) = none →
      resolveByFrontmatter item = none →
      resolveDue env item options = ⟨none, .none⟩) ∧
    (∀ d, resolveByMilestone item = some d →
      ∃ e ∈ item.evidence, ∃ m raw, e.milestone = some m ∧ m.dueOn = some raw ∧
        raw ≠ "" ∧ findDatePattern raw = some d) ∧
    (∀ today l, l ∈ item.labels → jsToLower (jsTrim l) = "due/today" →
      resolveByLabel item today ≠ none) ∧
    (∀ today d, resolveByLabel item today = some d →
      d = today ∨ ∃ l ∈ item.labels, labelDueMatch (jsToLower (jsTrim l)) = some d) ∧
    (∀ d, resolveByFrontmatter item = some d →
      ∃ e ∈ item.evidence, ∃ body, e.body = some body ∧ body ≠ "" ∧
        ∃ v, objLookup (parseFrontmatter body) "due" = some v ∧ findDatePattern v = some d) := by
  refine ⟨?_, ?_, ?_, ?_, ?_, ?_, ?_, ?_⟩
  · intro d hd
    simp only [resolveDue, hd]
  · intro hm d hd
    simp only [resolveDue, hm, hd]
  · intro hm hl d hd
    simp only [resolveDue, hm, hl, hd]
  · intro hm hl hf
    simp only [resolveDue, hm, hl, hf]
  · intro d hd
    obtain ⟨e, he, hfe⟩ := List.exists_of_findSome?_eq_some hd
    refine ⟨e, he, ?_⟩
    cases hmil : e.milestone with
    | none => simp only [hmil] at hfe; exact Option.noConfusion hfe
    | some m =>
      simp only [hmil] at hfe
      cases hdo : m.dueOn with
      | none => simp only [hdo] at hfe; exact Option.noConfusion hfe
      | some raw =>
        simp only [hdo] at hfe
        by_cases hraw : raw = ""
        · rw [if_pos hraw] at hfe
          exact absurd hfe (by simp)
        · rw [if_neg hraw] at hfe
          exact ⟨m, raw, rfl, hdo, hraw, hfe⟩
  · intro today l hl hdt hnone
    unfold resolveByLabel at hnone
    rw [List.findSome?_eq_none_iff] at hnone
    have := hnone l hl
    rw [hdt] at this
    simp at this
  · intro today d hd
    obtain ⟨l, hl, hfl⟩ := List.exists_of_findSome?_eq_some hd
    by_cases hdt : jsToLower (jsTrim l) = "due/today"
    · rw [if_pos hdt] at hfl
      exact Or.inl (Option.some.inj hfl).symm
    · rw [if_neg hdt] at hfl
      exact Or.inr ⟨l, hl, hfl⟩
  · intro d hd
    obtain ⟨e, he, hfe⟩ := List.exists_of_findSome?_eq_some hd
    refine ⟨e, he, ?_⟩
    cases hbody : e.body with
    | none => simp only [hbody] at hfe; exact Option.noConfusion hfe
    | some body =>
      simp only [hbody] at hfe
      by_cases hb : body = ""
      · rw [if_pos hb] at hfe
        exact absurd hfe (by simp)
      · rw [if_neg hb] at hfe
        refine ⟨body, rfl, hb, ?_⟩
        cases hlk : objLookup (parseFrontmatter body) "due" with
        | none => simp only [hlk] at hfe; exact Option.noConfusion hfe
        | some v =>
          simp only [hlk] at hfe
          by_cases hv : v = ""
          · rw [if_pos hv] at hfe
            exact absurd hfe (by simp)
          · rw [if_neg hv] at hfe
            exact ⟨v, rfl, hfe⟩

/-- The `due/today`-labelled record of the C6 witness. -/
def evC6 : Event :=
  { id := "14"
    provider := "github"
    type := .issue_created
    title := some "Finalize checklist"
    timestamp := "2026-02-14T01:00:00Z"
    labels := ["due/today"] }

/-- A concrete C6 input: no milestone, a `due/today` label. -/
def itemC6 : WorkItem :=
  { key := "github:acme/repo#14"
    kind := .issue
    title := "Finalize checklist"
    labels := ["due/today"]
    status := .unknown
    evidence := [evC6] }

/-- C6 witness: the label stage of the theorem applied at `itemC6` resolves
`due/today` to the formatted reference date. -/
theorem claim6_witness :
    resolveByMilestone itemC6 = none ∧
    resolveDue envW itemC6 {} = ⟨some "2026-02-14", .label⟩ :=
  ⟨by decide,
    (claim6_due_priority_chain envW itemC6 {}).2.1 (by decide) "2026-02-14" (by decide)⟩

/-! ## Aggregator claims: evidence, titles, validation -/

theorem sortEvidence_perm (l : List Event) : (sortEvidence l).Perm l :=
  List.perm_insertionSort evAscRel l

theorem mem_sortEvidence (l : List Event) (e : Event) : e ∈ sortEvidence l ↔ e ∈ l :=
  (sortEvidence_perm l).mem_iff

theorem mem_normalize_iff (evs : List Event) (it : WorkItem) :
    it ∈ normalizeEventsToWorkItems evs ↔ ∃ p ∈ groupEvents evs, it = mkWorkItem p := by
  unfold normalizeEventsToWorkItems
  rw [List.mem_map]
  constructor
  · rintro ⟨p, hp, rfl⟩
    exact ⟨p, hp, rfl⟩
  · rintro ⟨p, hp, rfl⟩
    exact ⟨p, hp, rfl⟩

/-- C8: every work unit produced by the aggregator has non-empty evidence,
sorted ascending by the records' timestamps. -/
theorem claim8_evidence_sorted (evs : List Event) (it : WorkItem)
    (h : it ∈ normalizeEventsToWorkItems evs) :
    it.evidence ≠ [] ∧ it.evidence.Sorted evAscRel := by
  obtain ⟨p, hp, rfl⟩ := (mem_normalize_iff evs it).mp h
  obtain ⟨k, g⟩ := p
  constructor
  · have hkmem : k ∈ keysOf (groupEvents evs) := List.mem_map_of_mem Prod.fst hp
    obtain ⟨e, he, hke⟩ := (mem_keysOf_groupEvents evs k).mp hkmem
    have hev : g.evidence = itemEvidence evs k := group_evidence_eq evs k g hp
    have hein : e ∈ g.evidence := by
      rw [hev]
      unfold itemEvidence
      rw [List.mem_filter]
      exact ⟨he, by simpa using hke⟩
    show sortEvidence g.evidence ≠ []
    intro hnil
    rw [← List.length_eq_zero] at hnil
    have := (sortEvidence_perm g.evidence).length_eq
    rw [hnil] at this
    rw [List.eq_nil_of_length_eq_zero this.symm] at hein
    simp at hein
  · exact List.sorted_insertionSort evAscRel g.evidence

/-- The two same-key records of the C8 witness, arriving out of order. -/
def evC8a : Event :=
  { id := "1"
    provider := "gh"
    type := .issue_commented
    title := some "T"
    timestamp := "2026-02-14T02:00:00Z" }

/-- See `evC8a`. -/
def evC8b : Event :=
  { id := "1"
    provider := "gh"
    type := .issue_created
    title := some "T"
    timestamp := "2026-02-14T01:00:00Z" }

/-- The work unit the aggregator produces for `[evC8a, evC8b]`. -/
def itemC8 : WorkItem :=
  { key := "gh:1"
    kind := .issue
    title := "T"
    status := .unknown
    evidence := [evC8b, evC8a] }

/-- C8 witness: the theorem applied at a two-record batch whose records
arrive in reverse chronological order. -/
theorem claim8_witness :
    itemC8 ∈ normalizeEventsToWorkItems [evC8a, evC8b] ∧
    itemC8.evidence ≠ [] ∧ itemC8.evidence.Sorted evAscRel :=
  ⟨by decide, (claim8_evidence_sorted [evC8a, evC8b] itemC8 (by decide)).1,
    (claim8_evidence_sorted [evC8a, evC8b] itemC8 (by decide)).2⟩

/-- A record title that the merge logic can never overwrite: non-empty and
not the placeholder. -/
def realTitle (e : Event) : Option String :=
  match e.title with
  | some t => if t ≠ "" ∧ t ≠ "(untitled)" then some t else none
  | none => none

theorem titleStep_some (cur s : String) (e : Event) (h : e.title = some s) :
    titleStep cur e = if s ≠ "" ∧ (cur = "" ∨ cur = "(untitled)") then s else cur := by
  unfold titleStep
  rw [h]

theorem titleStep_none (cur : String) (e : Event) (h : e.title = none) :
    titleStep cur e = cur := by
  unfold titleStep
  rw [h]

theorem realTitle_some (e : Event) (s : String) (h : e.title = some s) :
    realTitle e = if s ≠ "" ∧ s ≠ "(untitled)" then some s else none := by
  unfold realTitle
  rw [h]

theorem realTitle_none (e : Event) (h : e.title = none) : realTitle e = none := by
  unfold realTitle
  rw [h]

theorem realTitle_chars (e : Event) (t0 : String) (h : realTitle e = some t0) :
    e.title = some t0 ∧ t0 ≠ "" ∧ t0 ≠ "(untitled)" := by
  cases het : e.title with
  | none => rw [realTitle_none e het] at h; exact Option.noConfusion h
  | some s =>
    rw [realTitle_some e s het] at h
    by_cases hs : s ≠ "" ∧ s ≠ "(untitled)"
    · rw [if_pos hs] at h
      obtain rfl := Option.some.inj h
      exact ⟨rfl, hs⟩
    · rw [if_neg hs] at h
      exact Option.noConfusion h

theorem titleFold_of_fixed (rest : List Event) (cur : String)
    (hc1 : cur ≠ "") (hc2 : cur ≠ "(untitled)") : rest.foldl titleStep cur = cur := by
  induction rest with
  | nil => rfl
  | cons e t ih =>
    rw [List.foldl_cons]
    have hstep : titleStep cur e = cur := by
      cases het : e.title with
      | none => exact titleStep_none cur e het
      | some s =>
        rw [titleStep_some cur s e het]
        rw [if_neg]
        rintro ⟨-, hcur | hcur⟩
        · exact hc1 hcur
        · exact hc2 hcur
    rw [hstep]
    exact ih

theorem titleFold_first_real (rest : List Event) :
    ∀ (cur : String), (cur = "" ∨ cur = "(untitled)") →
      ∀ t ts, rest.filterMap realTitle = t :: ts → rest.foldl titleStep cur = t := by
  induction rest with
  | nil => intro cur _ t ts h; simp at h
  | cons e rest' ih =>
    intro cur hcur t ts h
    rw [List.filterMap_cons] at h
    rw [List.foldl_cons]
    cases hre : realTitle e with
    | some t0 =>
      rw [hre] at h
      have ht0 : t0 = t := (List.cons.inj h).1
      obtain ⟨het, h1, h2⟩ := realTitle_chars e t0 hre
      rw [titleStep_some cur t0 e het, if_pos ⟨h1, hcur⟩]
      rw [titleFold_of_fixed rest' t0 h1 h2]
      exact ht0
    | none =>
      rw [hre] at h
      cases het : e.title with
      | none =>
        rw [titleStep_none cur e het]
        exact ih cur hcur t ts h
      | some s =>
        rw [realTitle_some e s het] at hre
        rw [titleStep_some cur s e het]
        by_cases hs : s ≠ "" ∧ s ≠ "(untitled)"
        · rw [if_pos hs] at hre
          exact Option.noConfusion hre
        · push_neg at hs
          by_cases hs0 : s = ""
          · rw [if_neg (by simp [hs0])]
            exact ih cur hcur t ts h
          · have hs1 : s = "(untitled)" := hs hs0
            rw [if_pos ⟨hs0, hcur⟩]
            exact ih s (Or.inr hs1) t ts h

/-- Modelled from the spec: the spec's §3 sentence "title prefers the most
recently observed non-empty title among merged records" — the last non-empty
title in arrival order. The source implements a different rule, which the
amended claim states. -/
def specLatestTitle (evs : List Event) : Option String :=
  (evs.filterMap (fun e =>
    match e.title with
    | some t => if t ≠ "" then some t else none
    | none => none)).getLast?

/-- The two same-key records of the C9 inputs: first titled "A", then "B". -/
def evC9a : Event :=
  { id := "1"
    provider := "gh"
    type := .issue_created
    title := some "A"
    timestamp := "2026-02-14T01:00:00Z" }

/-- See `evC9a`. -/
def evC9b : Event :=
  { id := "1"
    provider := "gh"
    type := .issue_commented
    title := some "B"
    timestamp := "2026-02-14T02:00:00Z" }

/-- C9 counterexample: merging a record titled "A" and a later record titled
"B" yields title "A", not the most recently observed non-empty title "B". -/
theorem claim9_counterexample :
    (normalizeEventsToWorkItems [evC9a, evC9b]).map WorkItem.title = ["A"] ∧
    specLatestTitle [evC9a, evC9b] = some "B" ∧ ("A" : String) ≠ "B" :=
  ⟨by decide, by decide, by decide⟩

/-- C9 as amended: a merged unit's title is the EARLIEST non-empty,
non-placeholder title among its records in arrival order (when one exists),
because a truthy title is only overwritten while the current title is empty
or the placeholder `"(untitled)"`. -/
theorem claim9_amended_title_first (evs : List Event) (k : String) (it : WorkItem)
    (hmem : it ∈ normalizeEventsToWorkItems evs) (hk : it.key = k)
    (t : String) (ts : List String)
    (hreal : (itemEvidence evs k).filterMap realTitle = t :: ts) :
    it.title = t := by
  obtain ⟨p, hp, rfl⟩ := (mem_normalize_iff evs it).mp hmem
  obtain ⟨k2, g⟩ := p
  have hk2 : k2 = k := hk
  subst hk2
  obtain ⟨e0, rest, hfs, htitle⟩ := group_title_eq evs k2 g hp
  rw [hfs, List.filterMap_cons] at hreal
  show g.title = t
  rw [htitle]
  cases hre : realTitle e0 with
  | some t0 =>
    rw [hre] at hreal
    have ht0 : t0 = t := (List.cons.inj hreal).1
    obtain ⟨het, h1, h2⟩ := realTitle_chars e0 t0 hre
    rw [het]
    show rest.foldl titleStep t0 = t
    rw [titleFold_of_fixed rest t0 h1 h2]
    exact ht0
  | none =>
    simp only [hre] at hreal
    cases het : e0.title with
    | none =>
      exact titleFold_first_real rest "(untitled)" (Or.inr rfl) t ts hreal
    | some s =>
      rw [realTitle_some e0 s het] at hre
      show rest.foldl titleStep s = t
      by_cases hs : s ≠ "" ∧ s ≠ "(untitled)"
      · rw [if_pos hs] at hre
        exact Option.noConfusion hre
      · push_neg at hs
        by_cases hs0 : s = ""
        · exact titleFold_first_real rest s (Or.inl hs0) t ts hreal
        · exact titleFold_first_real rest s (Or.inr (hs hs0)) t ts hreal

/-- The work unit the aggregator produces for `[evC9a, evC9b]`. -/
def itemC9 : WorkItem :=
  { key := "gh:1"
    kind := .issue
    title := "A"
    status := .unknown
    evidence := [evC9a, evC9b] }

/-- C9 witness: the amended theorem applied at the two-record batch. -/
theorem claim9_witness :
    itemC9 ∈ normalizeEventsToWorkItems [evC9a, evC9b] ∧ itemC9.title = "A" :=
  ⟨by decide, claim9_amended_title_first [evC9a, evC9b] "gh:1" itemC9
    (by decide) rfl "A" ["B"] (by decide)⟩

/-- Modelled from the spec: §3's invariant that a `timestamp` must parse to a
valid ISO-8601 instant, with validity modelled as the basic
`YYYY-MM-DDTHH:MM:SSZ` form that all of the repository's fixtures use. The
source contains no such validation. -/
def specValidInstant (ts : String) : Bool :=
  let l := ts.data
  decide (l.length = 20) && (l.getD 4 ' ' == '-') && (l.getD 7 ' ' == '-') &&
    (l.getD 10 ' ' == 'T') && (l.getD 13 ' ' == ':') && (l.getD 16 ' ' == ':') &&
    (l.getD 19 ' ' == 'Z') &&
    (([0, 1, 2, 3, 5, 6, 8, 9, 11, 12, 14, 15, 17, 18] : List Nat).all
      (fun i => (l.getD i ' ').isDigit))

/-- The malformed-timestamp record of the C5 inputs. -/
def evC5 : Event :=
  { id := "9"
    provider := "gh"
    type := .issue_created
    title := some "Bad clock"
    timestamp := "not-a-timestamp" }

/-- C5 counterexample: a record with an unparseable timestamp is kept and
aggregated, not dropped. -/
theorem claim5_counterexample :
    specValidInstant evC5.timestamp = false ∧
    (normalizeEventsToWorkItems [evC5]).map WorkItem.evidence = [[evC5]] :=
  ⟨by decide, by decide⟩

/-- C5 as amended: the aggregator performs no timestamp validation and never
drops or aborts: every input record appears in the evidence of the work unit
for its key, and every evidence record comes from the input batch with a
matching key. -/
theorem claim5_amended_no_drop (evs : List Event) :
    (∀ e ∈ evs, ∃ it ∈ normalizeEventsToWorkItems evs,
      it.key = deriveItemKey e ∧ e ∈ it.evidence) ∧
    (∀ it ∈ normalizeEventsToWorkItems evs, ∀ e ∈ it.evidence,
      e ∈ evs ∧ deriveItemKey e = it.key) := by
  constructor
  · intro e he
    have hkmem : deriveItemKey e ∈ keysOf (groupEvents evs) :=
      (mem_keysOf_groupEvents evs (deriveItemKey e)).mpr ⟨e, he, rfl⟩
    obtain ⟨p, hp, hpk⟩ := List.mem_map.mp hkmem
    refine ⟨mkWorkItem p, List.mem_map_of_mem mkWorkItem hp, hpk, ?_⟩
    show e ∈ sortEvidence p.2.evidence
    rw [mem_sortEvidence]
    obtain ⟨k, g⟩ := p
    rw [group_evidence_eq evs k g hp]
    unfold itemEvidence
    rw [List.mem_filter]
    exact ⟨he, by simpa using hpk.symm⟩
  · intro it hit e he
    obtain ⟨p, hp, rfl⟩ := (mem_normalize_iff evs it).mp hit
    obtain ⟨k, g⟩ := p
    have hev : e ∈ g.evidence := by
      have : e ∈ sortEvidence g.evidence := he
      rwa [mem_sortEvidence] at this
    rw [group_evidence_eq evs k g hp] at hev
    unfold itemEvidence at hev
    rw [List.mem_filter] at hev
    refine ⟨hev.1, ?_⟩
    simpa using hev.2

/-- C5 witness: the amended theorem applied at the malformed-timestamp batch:
the bad record is still aggregated under its key. -/
theorem claim5_witness :
    ∃ it ∈ normalizeEventsToWorkItems [evC5],
      it.key = deriveItemKey evC5 ∧ evC5 ∈ it.evidence :=
  (claim5_amended_no_drop [evC5]).1 evC5 (by decide)

/-! ## Permutation stability of status classification (C4) -/

theorem mem_labelsStep_foldl (l : List Event) (acc : List String) (x : String) :
    x ∈ l.foldl labelsStep acc ↔ x ∈ acc ∨ ∃ e ∈ l, x ∈ e.labels := by
  induction l generalizing acc with
  | nil => simp
  | cons e t ih =>
    rw [List.foldl_cons, ih]
    unfold labelsStep
    rw [mem_foldl_addUnique]
    constructor
    · rintro ((hx | hx) | ⟨e', he', hx⟩)
      · exact Or.inl hx
      · exact Or.inr ⟨e, List.mem_cons_self e t, hx⟩
      · exact Or.inr ⟨e', List.mem_cons_of_mem e he', hx⟩
    · rintro (hx | ⟨e', he', hx⟩)
      · exact Or.inl (Or.inl hx)
      · rcases List.mem_cons.mp he' with rfl | he''
        · exact Or.inl (Or.inr hx)
        · exact Or.inr ⟨e', he'', hx⟩

theorem mem_itemLabels (evs : List Event) (k : String) (x : String) :
    x ∈ itemLabels evs k ↔ ∃ e ∈ itemEvidence evs k, x ∈ e.labels := by
  unfold itemLabels
  rw [mem_labelsStep_foldl]
  simp

/-- The status the pipeline assigns to key `k`'s work unit, expressed
canonically from the input batch (classification only reads labels and
evidence). -/
def keyStatus (evs : List Event) (k : String) : WorkStatus :=
  classifyStatus
    { key := k
      kind := .note
      title := ""
      labels := itemLabels evs k
      status := .unknown
      evidence := sortEvidence (itemEvidence evs k) } {}

theorem status_of_group (evs : List Event) (k : String) (g : EventGroup)
    (hp : (k, g) ∈ groupEvents evs) :
    classifyStatus (mkWorkItem (k, g)) {} = keyStatus evs k := by
  apply classifyStatus_eq_of_fields
  · show g.labels = itemLabels evs k
    exact group_labels_eq evs k g hp
  · show sortEvidence g.evidence = sortEvidence (itemEvidence evs k)
    rw [group_evidence_eq evs k g hp]

theorem keyStatus_perm (evs evs' : List Event) (k : String) (hperm : evs.Perm evs') :
    keyStatus evs k = keyStatus evs' k := by
  apply classifyStatus_congr
  · intro x
    rw [mem_itemLabels, mem_itemLabels]
    have hfp : (itemEvidence evs k).Perm (itemEvidence evs' k) := hperm.filter _
    constructor
    · rintro ⟨e, he, hx⟩
      exact ⟨e, hfp.mem_iff.mp he, hx⟩
    · rintro ⟨e, he, hx⟩
      exact ⟨e, hfp.mem_iff.mpr he, hx⟩
  · intro x
    show x ∈ sortEvidence (itemEvidence evs k) ↔ x ∈ sortEvidence (itemEvidence evs' k)
    rw [mem_sortEvidence, mem_sortEvidence]
    exact (hperm.filter _).mem_iff

theorem enrich_key (env : JsEnv) (ctx : PipelineContext)
    (hook : Option (WorkItem → HookOutcome)) (it : WorkItem) :
    (enrichWorkItem env ctx hook it).key = it.key := rfl

theorem enrich_status (env : JsEnv) (ctx : PipelineContext)
    (hook : Option (WorkItem → HookOutcome)) (it : WorkItem) :
    (enrichWorkItem env ctx hook it).status = classifyStatus it {} := rfl

theorem enriched_key_status (env : JsEnv) (ctx : PipelineContext)
    (hook : Option (WorkItem → HookOutcome)) (evs : List Event) (k : String)
    (st : WorkStatus) :
    (∃ it ∈ (normalizeEventsToWorkItems evs).map (enrichWorkItem env ctx hook),
        it.key = k ∧ it.status = st) ↔
      (∃ e ∈ evs, deriveItemKey e = k) ∧ keyStatus evs k = st := by
  constructor
  · rintro ⟨it, hit, hk, hst⟩
    obtain ⟨it0, hit0, rfl⟩ := List.mem_map.mp hit
    obtain ⟨p, hp, rfl⟩ := (mem_normalize_iff evs it0).mp hit0
    obtain ⟨k2, g⟩ := p
    have hk2 : k2 = k := hk
    subst hk2
    constructor
    · exact (mem_keysOf_groupEvents evs k2).mp (List.mem_map_of_mem Prod.fst hp)
    · rw [← status_of_group evs k2 g hp, ← enrich_status env ctx hook]
      exact hst
  · rintro ⟨⟨e, he, hke⟩, hst⟩
    have hkmem : k ∈ keysOf (groupEvents evs) :=
      (mem_keysOf_groupEvents evs k).mpr ⟨e, he, hke⟩
    obtain ⟨p, hp, hpk⟩ := List.mem_map.mp hkmem
    obtain ⟨k2, g⟩ := p
    have hk2 : k2 = k := hpk
    subst hk2
    refine ⟨enrichWorkItem env ctx hook (mkWorkItem (k2, g)),
      List.mem_map_of_mem _ (List.mem_map_of_mem mkWorkItem hp), rfl, ?_⟩
    rw [enrich_status, status_of_group evs k2 g hp]
    exact hst

theorem enriched_countP (env : JsEnv) (ctx : PipelineContext)
    (hook : Option (WorkItem → HookOutcome)) (evs : List Event) (st : WorkStatus) :
    ((normalizeEventsToWorkItems evs).map (enrichWorkItem env ctx hook)).countP
        (fun it => it.status == st) =
      (keysOf (groupEvents evs)).countP (fun k => keyStatus evs k == st) := by
  unfold normalizeEventsToWorkItems
  rw [List.countP_map, List.countP_map]
  unfold keysOf
  rw [List.countP_map]
  apply List.countP_congr
  intro p hp
  obtain ⟨k, g⟩ := p
  show ((enrichWorkItem env ctx hook (mkWorkItem (k, g))).status == st) = true ↔
    (keyStatus evs k == st) = true
  rw [enrich_status, status_of_group evs k g hp]

theorem countP_nodup_mem_congr (l l' : List String) (hnd : l.Nodup) (hnd' : l'.Nodup)
    (hmem : ∀ x, x ∈ l ↔ x ∈ l') (p : String → Bool) : l.countP p = l'.countP p := by
  rw [List.countP_eq_length_filter, List.countP_eq_length_filter]
  have hfin : (l.filter p).toFinset = (l'.filter p).toFinset := by
    apply Finset.ext
    intro x
    rw [List.mem_toFinset, List.mem_toFinset, List.mem_filter, List.mem_filter, hmem x]
  have h1 := List.toFinset_card_of_nodup (List.Nodup.filter p hnd)
  have h2 := List.toFinset_card_of_nodup (List.Nodup.filter p hnd')
  rw [← h1, ← h2, hfin]

theorem digest_stats_done (env : JsEnv) (ctx : PipelineContext)
    (hook : Option (WorkItem → HookOutcome)) (evs : List Event) :
    (runPipelineDigest env ctx hook evs).stats.done =
      (keysOf (groupEvents evs)).countP (fun k => keyStatus evs k == .done) := by
  show (sortWorkItems (((normalizeEventsToWorkItems evs).map
    (enrichWorkItem env ctx hook)).filter (fun it => it.status == .done))).length = _
  rw [length_sortWorkItems, ← List.countP_eq_length_filter]
  exact enriched_countP env ctx hook evs .done

theorem digest_stats_inProgress (env : JsEnv) (ctx : PipelineContext)
    (hook : Option (WorkItem → HookOutcome)) (evs : List Event) :
    (runPipelineDigest env ctx hook evs).stats.inProgress =
      (keysOf (groupEvents evs)).countP (fun k => keyStatus evs k == .in_progress) := by
  show (sortWorkItems (((normalizeEventsToWorkItems evs).map
    (enrichWorkItem env ctx hook)).filter (fun it => it.status == .in_progress))).length = _
  rw [length_sortWorkItems, ← List.countP_eq_length_filter]
  exact enriched_countP env ctx hook evs .in_progress

theorem digest_stats_blocked (env : JsEnv) (ctx : PipelineContext)
    (hook : Option (WorkItem → HookOutcome)) (evs : List Event) :
    (runPipelineDigest env ctx hook evs).stats.blocked =
      (keysOf (groupEvents evs)).countP (fun k => keyStatus evs k == .blocked) := by
  show (sortWorkItems (((normalizeEventsToWorkItems evs).map
    (enrichWorkItem env ctx hook)).filter (fun it => it.status == .blocked))).length = _
  rw [length_sortWorkItems, ← List.countP_eq_length_filter]
  exact enriched_countP env ctx hook evs .blocked

theorem digest_done_keys (env : JsEnv) (ctx : PipelineContext)
    (hook : Option (WorkItem → HookOutcome)) (evs : List Event) (k : String) :
    (∃ it ∈ (runPipelineDigest env ctx hook evs).sections.done, it.key = k) ↔
      (∃ e ∈ evs, deriveItemKey e = k) ∧ keyStatus evs k = .done := by
  constructor
  · rintro ⟨it, hit, hk⟩
    have h := (mem_digest_done env _ ctx it).mp hit
    exact (enriched_key_status env ctx hook evs k .done).mp ⟨it, h.1, hk, h.2⟩
  · intro h
    obtain ⟨it, hit, hk, hst⟩ := (enriched_key_status env ctx hook evs k .done).mpr h
    exact ⟨it, (mem_digest_done env _ ctx it).mpr ⟨hit, hst⟩, hk⟩

theorem digest_inProgress_keys (env : JsEnv) (ctx : PipelineContext)
    (hook : Option (WorkItem → HookOutcome)) (evs : List Event) (k : String) :
    (∃ it ∈ (runPipelineDigest env ctx hook evs).sections.inProgress, it.key = k) ↔
      (∃ e ∈ evs, deriveItemKey e = k) ∧ keyStatus evs k = .in_progress := by
  constructor
  · rintro ⟨it, hit, hk⟩
    have h := (mem_digest_inProgress env _ ctx it).mp hit
    exact (enriched_key_status env ctx hook evs k .in_progress).mp ⟨it, h.1, hk, h.2⟩
  · intro h
    obtain ⟨it, hit, hk, hst⟩ := (enriched_key_status env ctx hook evs k .in_progress).mpr h
    exact ⟨it, (mem_digest_inProgress env _ ctx it).mpr ⟨hit, hst⟩, hk⟩

theorem digest_blocked_keys (env : JsEnv) (ctx : PipelineContext)
    (hook : Option (WorkItem → HookOutcome)) (evs : List Event) (k : String) :
    (∃ it ∈ (runPipelineDigest env ctx hook evs).sections.blocked, it.key = k) ↔
      (∃ e ∈ evs, deriveItemKey e = k) ∧ keyStatus evs k = .blocked := by
  constructor
  · rintro ⟨it, hit, hk⟩
    have h := (mem_digest_blocked env _ ctx it).mp hit
    exact (enriched_key_status env ctx hook evs k .blocked).mp ⟨it, h.1, hk, h.2⟩
  · intro h
    obtain ⟨it, hit, hk, hst⟩ := (enriched_key_status env ctx hook evs k .blocked).mpr h
    exact ⟨it, (mem_digest_blocked env _ ctx it).mpr ⟨hit, hst⟩, hk⟩

theorem digest_next_keys (env : JsEnv) (ctx : PipelineContext)
    (hook : Option (WorkItem → HookOutcome)) (evs : List Event) (k : String) :
    (∃ it ∈ (runPipelineDigest env ctx hook evs).sections.next, it.key = k) ↔
      (∃ e ∈ evs, deriveItemKey e = k) ∧ keyStatus evs k = .planned := by
  constructor
  · rintro ⟨it, hit, hk⟩
    have h := (mem_digest_next env _ ctx it).mp hit
    exact (enriched_key_status env ctx hook evs k .planned).mp ⟨it, h.1, hk, h.2⟩
  · intro h
    obtain ⟨it, hit, hk, hst⟩ := (enriched_key_status env ctx hook evs k .planned).mpr h
    exact ⟨it, (mem_digest_next env _ ctx it).mpr ⟨hit, hst⟩, hk⟩

theorem keys_countP_perm (evs evs' : List Event) (st : WorkStatus) (hperm : evs.Perm evs') :
    (keysOf (groupEvents evs)).countP (fun k => keyStatus evs k == st) =
      (keysOf (groupEvents evs')).countP (fun k => keyStatus evs' k == st) := by
  have hk : ∀ k, keyStatus evs k = keyStatus evs' k :=
    fun k => keyStatus_perm evs evs' k hperm
  have h1 : (keysOf (groupEvents evs)).countP (fun k => keyStatus evs k == st) =
      (keysOf (groupEvents evs)).countP (fun k => keyStatus evs' k == st) :=
    List.countP_congr (fun x _ => by rw [hk x])
  rw [h1]
  apply countP_nodup_mem_congr _ _ (keysOf_groupEvents_nodup evs) (keysOf_groupEvents_nodup evs')
  intro x
  rw [mem_keysOf_groupEvents, mem_keysOf_groupEvents]
  constructor
  · rintro ⟨e, he, hke⟩
    exact ⟨e, hperm.mem_iff.mp he, hke⟩
  · rintro ⟨e, he, hke⟩
    exact ⟨e, hperm.mem_iff.mpr he, hke⟩

theorem keys_exists_perm (evs evs' : List Event) (k : String) (st : WorkStatus)
    (hperm : evs.Perm evs') :
    ((∃ e ∈ evs, deriveItemKey e = k) ∧ keyStatus evs k = st) ↔
      ((∃ e ∈ evs', deriveItemKey e = k) ∧ keyStatus evs' k = st) := by
  rw [keyStatus_perm evs evs' k hperm]
  constructor
  · rintro ⟨⟨e, he, hke⟩, hst⟩
    exact ⟨⟨e, hperm.mem_iff.mp he, hke⟩, hst⟩
  · rintro ⟨⟨e, he, hke⟩, hst⟩
    exact ⟨⟨e, hperm.mem_iff.mpr he, hke⟩, hst⟩

/-- One of the two same-key records of the C4 inputs, carrying a due label
that resolves to the reference date. -/
def evC4a : Event :=
  { id := "1"
    provider := "gh"
    type := .issue_created
    title := some "T"
    timestamp := "2026-02-14T01:00:00Z"
    labels := ["due:2026-02-14"] }

/-- See `evC4a`: same key, a different due label, a later timestamp. -/
def evC4b : Event :=
  { id := "1"
    provider := "gh"
    type := .issue_created
    title := some "T"
    timestamp := "2026-02-14T02:00:00Z"
    labels := ["due:2026-03-01"] }

/-- C4 counterexample: permuting the input records changes the digest's
stats. The merged unit's label order follows arrival order, and the due
resolver takes the first matching label, so `[evC4a, evC4b]` resolves due
`2026-02-14` (due today, stats.dueToday = 1) while `[evC4b, evC4a]` resolves
`2026-03-01` (stats.dueToday = 0). -/
theorem claim4_counterexample :
    ([evC4a, evC4b] : List Event).Perm [evC4b, evC4a] ∧
    (runPipelineDigest envW {} none [evC4a, evC4b]).stats.dueToday = 1 ∧
    (runPipelineDigest envW {} none [evC4b, evC4a]).stats.dueToday = 0 :=
  ⟨by decide, by decide, by decide⟩

/-- C4 as amended: permuting the input records preserves the set of work-unit
keys in each status section (done, inProgress, blocked, next) and the
done/inProgress/blocked stats, because status classification only reads
label-set and evidence-set membership; the dueToday stats and membership,
item titles, and within-section ordering may change, because due resolution
and title selection scan labels and titles in arrival-dependent order. -/
theorem claim4_amended_status_stable (env : JsEnv) (ctx : PipelineContext)
    (hook : Option (WorkItem → HookOutcome)) (evs evs' : List Event)
    (hperm : evs.Perm evs') :
    (runPipelineDigest env ctx hook evs).stats.done =
      (runPipelineDigest env ctx hook evs').stats.done ∧
    (runPipelineDigest env ctx hook evs).stats.inProgress =
      (runPipelineDigest env ctx hook evs').stats.inProgress ∧
    (runPipelineDigest env ctx hook evs).stats.blocked =
      (runPipelineDigest env ctx hook evs').stats.blocked ∧
    (∀ k, (∃ it ∈ (runPipelineDigest env ctx hook evs).sections.done, it.key = k) ↔
      (∃ it ∈ (runPipelineDigest env ctx hook evs').sections.done, it.key = k)) ∧
    (∀ k, (∃ it ∈ (runPipelineDigest env ctx hook evs).sections.inProgress, it.key = k) ↔
      (∃ it ∈ (runPipelineDigest env ctx hook evs').sections.inProgress, it.key = k)) ∧
    (∀ k, (∃ it ∈ (runPipelineDigest env ctx hook evs).sections.blocked, it.key = k) ↔
      (∃ it ∈ (runPipelineDigest env ctx hook evs').sections.blocked, it.key = k)) ∧
    (∀ k, (∃ it ∈ (runPipelineDigest env ctx hook evs).sections.next, it.key = k) ↔
      (∃ it ∈ (runPipelineDigest env ctx hook evs').sections.next, it.key = k)) := by
  refine ⟨?_, ?_, ?_, ?_, ?_, ?_, ?_⟩
  · rw [digest_stats_done, digest_stats_done]
    exact keys_countP_perm evs evs' .done hperm
  · rw [digest_stats_inProgress, digest_stats_inProgress]
    exact keys_countP_perm evs evs' .in_progress hperm
  · rw [digest_stats_blocked, digest_stats_blocked]
    exact keys_countP_perm evs evs' .blocked hperm
  · intro k
    rw [digest_done_keys, digest_done_keys]
    exact keys_exists_perm evs evs' k .done hperm
  · intro k
    rw [digest_inProgress_keys, digest_inProgress_keys]
    exact keys_exists_perm evs evs' k .in_progress hperm
  · intro k
    rw [digest_blocked_keys, digest_blocked_keys]
    exact keys_exists_perm evs evs' k .blocked hperm
  · intro k
    rw [digest_next_keys, digest_next_keys]
    exact keys_exists_perm evs evs' k .planned hperm

/-- C4 witness: the amended theorem applied at the counterexample's pair of
batches — the done stats agree even though the dueToday stats differ. -/
theorem claim4_witness :
    (runPipelineDigest envW {} none [evC4a, evC4b]).stats.done =
      (runPipelineDigest envW {} none [evC4b, evC4a]).stats.done :=
  (claim4_amended_status_stable envW {} none [evC4a, evC4b] [evC4b, evC4a] (by decide)).1
